import Mathlib

set_option maxRecDepth 8000

/-!
Verification of the feedToHtml incremental monthly-archive engine.

The JavaScript sources are shallowly embedded: JS strings become `String`
(worked on through their `List Char` data), JS `Date` values become the
`JSDate` record below (the environment-dependent projections `getFullYear`,
`getMonth`, `toISOString`, `toLocaleDateString` are carried as fields, since
they are opaque host-environment functions of the stored time), JS arrays
become `List`, the JS `Set` of link strings becomes a `List String` queried
with `contains`, and the filesystem becomes an explicit association list
threaded through the orchestration loop.  Regex operations of the source are
embedded as explicit scanning functions over `List Char` that reproduce the
leftmost-match / non-overlapping-global-replace semantics of the concrete
patterns used by the code.
-/

/-! ## Generic string scanning utilities (JS `indexOf` / `replace` semantics) -/

/-- `startsWithL needle hay`: `hay` begins with `needle` (case sensitive). -/
def startsWithL : List Char → List Char → Bool
  | [], _ => true
  | _ :: _, [] => false
  | c :: cs, d :: ds => c == d && startsWithL cs ds

/-- Split at the first occurrence of `needle` (JS `indexOf` + slicing):
returns the part before the match and the part after it. -/
def splitFirstL (needle : List Char) : List Char → Option (List Char × List Char)
  | [] => if needle.isEmpty then some ([], []) else none
  | c :: rest =>
    if startsWithL needle (c :: rest) then
      some ([], (c :: rest).drop needle.length)
    else
      match splitFirstL needle rest with
      | some (pre, post) => some (c :: pre, post)
      | none => none

/-- Substring membership (JS `String.prototype.includes`). -/
def containsL (needle hay : List Char) : Bool := (splitFirstL needle hay).isSome

/-- Scanner for `countL`: `skip` characters of the last match remain to be
passed over before scanning resumes. -/
def countLAux (needle : List Char) : Nat → List Char → Nat
  | _, [] => 0
  | skip + 1, _ :: rest => countLAux needle skip rest
  | 0, c :: rest =>
    if needle ≠ [] ∧ startsWithL needle (c :: rest) then
      1 + countLAux needle (needle.length - 1) rest
    else
      countLAux needle 0 rest

/-- Number of non-overlapping left-to-right matches of a literal
(JS `str.match(/lit/g).length`).  `needle` is assumed nonempty. -/
def countL (needle : List Char) (hay : List Char) : Nat := countLAux needle 0 hay

/-- Scanner for `replaceAllL`; `skip` characters of the last match remain to
be dropped before scanning resumes. -/
def replaceAllLAux (needle repl : List Char) : Nat → List Char → List Char
  | _, [] => []
  | skip + 1, _ :: rest => replaceAllLAux needle repl skip rest
  | 0, c :: rest =>
    if needle ≠ [] ∧ startsWithL needle (c :: rest) then
      repl ++ replaceAllLAux needle repl (needle.length - 1) rest
    else
      c :: replaceAllLAux needle repl 0 rest

/-- Global non-overlapping literal replacement
(JS `str.replace(new RegExp(escaped, 'g'), repl)`). `needle` assumed nonempty. -/
def replaceAllL (needle repl hay : List Char) : List Char :=
  replaceAllLAux needle repl 0 hay

/-- Case-insensitive prefix test; `needle` is given in lowercase
(models the `/i` flag on the ASCII literals used by the source). -/
def startsWithCIL : List Char → List Char → Bool
  | [], _ => true
  | _ :: _, [] => false
  | c :: cs, d :: ds => c == d.toLower && startsWithCIL cs ds

/-- Split at the first case-insensitive occurrence of lowercase literal
`needle`, returning `(before, matchedOriginalText, after)`. -/
def splitFirstCIL (needle : List Char) : List Char → Option (List Char × List Char × List Char)
  | [] => none
  | c :: rest =>
    if startsWithCIL needle (c :: rest) then
      some ([], (c :: rest).take needle.length, (c :: rest).drop needle.length)
    else
      match splitFirstCIL needle rest with
      | some (pre, m, post) => some (c :: pre, m, post)
      | none => none

/-- String-level wrapper for `splitFirstL`. -/
def splitFirstS (needle s : String) : Option (String × String) :=
  match splitFirstL needle.data s.data with
  | some (pre, post) => some (String.mk pre, String.mk post)
  | none => none

/-- String-level wrapper for `containsL`. -/
def containsS (needle s : String) : Bool := containsL needle.data s.data

/-- String-level wrapper for `countL`. -/
def countS (needle s : String) : Nat := countL needle.data s.data

/-- String-level wrapper for `replaceAllL`. -/
def replaceAllS (needle repl s : String) : String :=
  String.mk (replaceAllL needle.data repl.data s.data)

/-- Model of JS `String.prototype.trim`: strip whitespace characters from
both ends (ASCII-compatible with `Char.isWhitespace`). -/
def jsTrim (s : String) : String :=
  String.mk ((s.data.dropWhile Char.isWhitespace).reverse.dropWhile Char.isWhitespace).reverse

/-! ## Data model -/

/-- Shallow embedding of a JS `Date`.  `time` is `getTime()`;
`year`/`monthIndex` are `getFullYear()`/`getMonth()` in the host's local
calendar; `iso` is `toISOString()`; `locale` is the `toLocaleDateString`
rendering under the configured format.  The host-environment projections are
carried as data since the source only ever consumes them opaquely. -/
structure JSDate where
  time : Int
  year : Int
  monthIndex : Nat
  iso : String
  locale : String
deriving DecidableEq, Repr

/-- Embedding of the `RSSItem` model (src/src/models/rss_item.js). -/
structure RSSItem where
  title : String
  description : String
  link : String
  pubDate : Option JSDate
  author : String
  categories : List String
deriving DecidableEq, Repr

/-- Embedding of the `RSSFeed` model fields consumed by the template engine. -/
structure RSSFeed where
  title : String
  description : String
  link : String
  language : String
  items : List RSSItem
deriving DecidableEq, Repr

/-- `feed.getItemCount()`. -/
def RSSFeed.getItemCount (f : RSSFeed) : Nat := f.items.length

/-- Comparator key used by `groupItemsByMonth`'s within-bucket sort
(`b.pubDate.getTime() - a.pubDate.getTime()`); the sort only ever runs on
items that have a `pubDate`, the `0` default is never reached there. -/
def itemTime (i : RSSItem) : Int :=
  match i.pubDate with
  | some d => d.time
  | none => 0

/-! ## MonthlyGroupingService (src/unnamed/part_001) -/

/-- `String(month).padStart(2, '0')` for `month = monthIndex + 1`. -/
def padMonth (n : Nat) : String :=
  if n < 10 then "0" ++ toString n else toString n

/-- `MonthlyGroupingService.getYearMonthKey`: local-calendar year (unpadded
decimal, via JS `String(year)`), dash, two-digit zero-padded month. -/
def getYearMonthKey (d : JSDate) : String :=
  toString d.year ++ "-" ++ padMonth (d.monthIndex + 1)

/-- Stable insertion used to model the (stable, ES2019+) JS
`Array.prototype.sort` with comparator `(a, b) => b.time - a.time`:
an element goes in front of the first already-placed element whose time is
not larger, so earlier-input elements win ties. -/
def insertByTimeDesc (x : RSSItem) : List RSSItem → List RSSItem
  | [] => [x]
  | y :: ys => if itemTime y ≤ itemTime x then x :: y :: ys else y :: insertByTimeDesc x ys

/-- Stable sort by publication time descending (newest first). -/
def sortByTimeDesc : List RSSItem → List RSSItem
  | [] => []
  | x :: xs => insertByTimeDesc x (sortByTimeDesc xs)

/-- JS `Map` update used by `groupItemsByMonth`: push onto an existing
key's array, or append a fresh `(key, [item])` entry preserving
first-insertion order of keys. -/
def insertGrouped (k : String) (it : RSSItem) :
    List (String × List RSSItem) → List (String × List RSSItem)
  | [] => [(k, [it])]
  | (k', its) :: rest =>
    if k' = k then (k', its ++ [it]) :: rest else (k', its) :: insertGrouped k it rest

/-- First phase of `groupItemsByMonth`: the `for` loop that skips items
without `pubDate` and pushes the rest onto their month's bucket. -/
def collectGroups (items : List RSSItem) : List (String × List RSSItem) :=
  items.foldl
    (fun acc it =>
      match it.pubDate with
      | none => acc
      | some d => insertGrouped (getYearMonthKey d) it acc)
    []

/-- Code-unit-wise lexicographic `≤` on character lists, modelling JS
`localeCompare` on the ASCII digit/dash month keys (the default collator
agrees with code-point order on equal-length keys of this alphabet). -/
def charsLe : List Char → List Char → Bool
  | [], _ => true
  | _ :: _, [] => false
  | a :: as, b :: bs =>
    if a.toNat < b.toNat then true
    else if b.toNat < a.toNat then false
    else charsLe as bs

/-- String-level wrapper for `charsLe`. -/
def strLe (a b : String) : Bool := charsLe a.data b.data

/-- Stable descending insertion on bucket keys, modelling the final
`[...groups.entries()].sort((a, b) => b[0].localeCompare(a[0]))`. -/
def insertPairDesc (x : String × List RSSItem) :
    List (String × List RSSItem) → List (String × List RSSItem)
  | [] => [x]
  | y :: ys => if strLe y.1 x.1 then x :: y :: ys else y :: insertPairDesc x ys

/-- Sort bucket entries by key, descending. -/
def sortPairsDesc : List (String × List RSSItem) → List (String × List RSSItem)
  | [] => []
  | x :: xs => insertPairDesc x (sortPairsDesc xs)

/-- `MonthlyGroupingService.groupItemsByMonth`. -/
def groupItemsByMonth (items : List RSSItem) : List (String × List RSSItem) :=
  sortPairsDesc ((collectGroups items).map (fun p => (p.1, sortByTimeDesc p.2)))

/-- `MonthlyGroupingService.filterNewItems`: drop items without `pubDate`,
drop items whose link is already known; `lastDate` is accepted but unused. -/
def filterNewItems (newItems : List RSSItem) (_lastDate : Option JSDate)
    (existingLinks : List String) : List RSSItem :=
  newItems.filter fun item =>
    match item.pubDate with
    | none => false
    | some _ => !(existingLinks.contains item.link)

/-- `outputDir.replace(/\/+$/, '')`. -/
def dropTrailingSlashes (s : String) : String :=
  String.mk (s.data.reverse.dropWhile (fun c => c == '/')).reverse

/-- `split('-')[0]`: the maximal prefix before the first dash. -/
def yearOf (s : String) : String :=
  String.mk (s.data.takeWhile (fun c => c != '-'))

/-- `MonthlyGroupingService.generateFilePath`: `outputDir/YYYY/YYYY-MM.html`. -/
def generateFilePath (yearMonth outputDir : String) : String :=
  dropTrailingSlashes outputDir ++ "/" ++ yearOf yearMonth ++ "/" ++ yearMonth ++ ".html"

/-- `MonthlyGroupingService.generateRelativePath`: same year gives the bare
filename, a different year goes up and into the target year directory. -/
def generateRelativePath (fromYearMonth toYearMonth : String) : String :=
  if yearOf fromYearMonth = yearOf toYearMonth then
    toYearMonth ++ ".html"
  else
    "../" ++ yearOf toYearMonth ++ "/" ++ toYearMonth ++ ".html"

/-- Stable ascending insertion on strings (for `findAdjacentMonths`'s
`sort((a, b) => a.localeCompare(b))`, same code-point modelling as above). -/
def insertStrAsc (x : String) : List String → List String
  | [] => [x]
  | y :: ys => if strLe x y then x :: y :: ys else y :: insertStrAsc x ys

/-- Ascending sort of month keys. -/
def sortStringsAsc : List String → List String
  | [] => []
  | x :: xs => insertStrAsc x (sortStringsAsc xs)

/-- Result record of `findAdjacentMonths`. -/
structure AdjacentMonths where
  prev : Option String
  next : Option String
deriving DecidableEq, Repr

/-- `MonthlyGroupingService.findAdjacentMonths`. -/
def findAdjacentMonths (currentYearMonth : String) (availableMonths : List String) :
    AdjacentMonths :=
  let sorted := sortStringsAsc availableMonths
  match sorted.findIdx? (fun m => m == currentYearMonth) with
  | none => ⟨none, none⟩
  | some i => ⟨if i > 0 then sorted.get? (i - 1) else none, sorted.get? (i + 1)⟩

/-- `MonthlyGroupingService.countSkippedItems`. -/
def countSkippedItems (items : List RSSItem) : Nat :=
  (items.filter (fun i => i.pubDate.isNone)).length

/-- `MonthlyGroupingService.countProcessableItems`. -/
def countProcessableItems (items : List RSSItem) : Nat :=
  (items.filter (fun i => i.pubDate.isSome)).length

/-- `MonthlyGroupingService.mergeItems`: new items sorted newest-first, then
prepended as a block to the existing items. -/
def mergeItems (newItems existingItems : List RSSItem) : List RSSItem :=
  sortByTimeDesc newItems ++ existingItems

/-! ## C1 and C7 -/

/-! ## HtmlParserService (src/src/utils/file_utils.js, class HtmlParserService) -/

/-- Either quote character accepted by the meta-tag regexes (`["']`).
The quote characters are spelled via code points (34 = double quote,
39 = single quote). -/
def isQuote (c : Char) : Bool := c == Char.ofNat 34 || c == Char.ofNat 39

/-- Match of `/<meta\s+(name=["']date["']\s+content=["'])[^"']*["']/i` at the
head of the list; returns the `$1` capture group (original text) and the
remainder after the whole match. -/
def matchMeta1At (l : List Char) : Option (List Char × List Char) :=
  if startsWithCIL "<meta".data l then
    let l1 := l.drop 5
    let ws := l1.takeWhile Char.isWhitespace
    if ws.isEmpty then none else
    let g0 := l1.drop ws.length
    if startsWithCIL "name=".data g0 then
      match g0.drop 5 with
      | q1 :: r1 =>
        if isQuote q1 && startsWithCIL "date".data r1 then
          match r1.drop 4 with
          | q2 :: r2 =>
            if isQuote q2 then
              let ws2 := r2.takeWhile Char.isWhitespace
              if ws2.isEmpty then none else
              let r3 := r2.drop ws2.length
              if startsWithCIL "content=".data r3 then
                match r3.drop 8 with
                | q3 :: r4 =>
                  if isQuote q3 then
                    let glen := 5 + 1 + 4 + 1 + ws2.length + 8 + 1
                    let value := r4.takeWhile (fun c => !(isQuote c))
                    match r4.drop value.length with
                    | q4 :: post => if isQuote q4 then some (g0.take glen, post) else none
                    | [] => none
                  else none
                | [] => none
              else none
            else none
          | [] => none
        else none
      | [] => none
    else none
  else none

/-- First match of the name-first meta-date pattern anywhere in the list:
`(before, captured group, after)`. -/
def findMeta1 : List Char → Option (List Char × List Char × List Char)
  | [] => none
  | c :: rest =>
    match matchMeta1At (c :: rest) with
    | some (g1, post) => some ([], g1, post)
    | none => (findMeta1 rest).map (fun (pre, g1, post) => (c :: pre, g1, post))

/-- Match of `/<meta\s+(content=["'])[^"']*["']\s+(name=["']date["'])/i` at the
head: returns `($1, $2, remainder)`. -/
def matchMeta2At (l : List Char) : Option (List Char × List Char × List Char) :=
  if startsWithCIL "<meta".data l then
    let l1 := l.drop 5
    let ws := l1.takeWhile Char.isWhitespace
    if ws.isEmpty then none else
    let g0 := l1.drop ws.length
    if startsWithCIL "content=".data g0 then
      match g0.drop 8 with
      | q1 :: r1 =>
        if isQuote q1 then
          let value := r1.takeWhile (fun c => !(isQuote c))
          match r1.drop value.length with
          | q2 :: r2 =>
            if isQuote q2 then
              let ws2 := r2.takeWhile Char.isWhitespace
              if ws2.isEmpty then none else
              let r3 := r2.drop ws2.length
              if startsWithCIL "name=".data r3 then
                match r3.drop 5 with
                | q3 :: r4 =>
                  if isQuote q3 && startsWithCIL "date".data r4 then
                    match r4.drop 4 with
                    | q4 :: post =>
                      if isQuote q4 then
                        some (g0.take 9, r3.take (5 + 1 + 4 + 1), post)
                      else none
                    | [] => none
                  else none
                | [] => none
              else none
            else none
          | [] => none
        else none
      | [] => none
    else none
  else none

/-- First match of the content-first meta-date pattern anywhere. -/
def findMeta2 : List Char → Option (List Char × List Char × List Char × List Char)
  | [] => none
  | c :: rest =>
    match matchMeta2At (c :: rest) with
    | some (g1, g2, post) => some ([], g1, g2, post)
    | none => (findMeta2 rest).map (fun (pre, g1, g2, post) => (c :: pre, g1, g2, post))

/-- First match of `/(<head[^>]*>)/i`: `(before, matched open tag, after)`. -/
def findHeadTag : List Char → Option (List Char × List Char × List Char)
  | [] => none
  | c :: rest =>
    (if startsWithCIL "<head".data (c :: rest) then
      let after := (c :: rest).drop 5
      let gap := after.takeWhile (fun x => x != '>')
      match after.drop gap.length with
      | '>' :: post => some ([], (c :: rest).take (5 + gap.length + 1), post)
      | _ => none
    else none).orElse fun _ =>
      (findHeadTag rest).map (fun (pre, m, post) => (c :: pre, m, post))

/-- `HtmlParserService.updateMetaDate`: rewrite the meta date tag's content
to `newDate.toISOString()`, trying the name-first pattern, then the
content-first pattern, then inserting a fresh tag after `<head>`, else
returning the input unchanged. -/
def updateMetaDate (htmlContent : String) (newDate : JSDate) : String :=
  let isoDate := newDate.iso
  match findMeta1 htmlContent.data with
  | some (pre, g1, post) =>
    String.mk pre ++ "<meta " ++ String.mk g1 ++ isoDate ++ "\"" ++ String.mk post
  | none =>
    match findMeta2 htmlContent.data with
    | some (pre, g1, g2, post) =>
      String.mk pre ++ "<meta " ++ String.mk g1 ++ isoDate ++ "\" " ++ String.mk g2 ++
        String.mk post
    | none =>
      match findHeadTag htmlContent.data with
      | some (pre, m, post) =>
        String.mk pre ++ String.mk m ++ "\n    <meta name=\"date\" content=\"" ++ isoDate ++
          "\">" ++ String.mk post
      | none => htmlContent

/-- Attempted match of `/<main[^>]*>([\s\S]*?)<\/main>/i` at the current
position: `(open tag, inner, matched close text, after)`. -/
def tryMainAt (l : List Char) : Option (List Char × List Char × List Char × List Char) :=
  if startsWithCIL "<main".data l then
    let after := l.drop 5
    let gap := after.takeWhile (fun x => x != '>')
    match after.drop gap.length with
    | '>' :: body =>
      match splitFirstCIL "</main>".data body with
      | some (inner, closeTxt, post) =>
        some (l.take (5 + gap.length + 1), inner, closeTxt, post)
      | none => none
    | _ => none
  else none

/-- First match of `/<main[^>]*>([\s\S]*?)<\/main>/i` anywhere:
`(before, open tag, inner, matched close text, after)`. -/
def findMainL : List Char → Option (List Char × List Char × List Char × List Char × List Char)
  | [] => none
  | c :: rest =>
    match tryMainAt (c :: rest) with
    | some r => some ([], r)
    | none => (findMainL rest).map (fun r => (c :: r.1, r.2))

/-- `HtmlParserService.extractMainContent` (also the item-extraction step of
`FeedToHtml.mergeHtmlContent`): the trimmed text inside the first `<main>`
region, or `""` when the region is absent.  `String.trim` models JS `trim`
(both strip whitespace from the two ends). -/
def extractMainInner (s : String) : String :=
  match findMainL s.data with
  | some (_, _, inner, _, _) => jsTrim (String.mk inner)
  | none => ""

/-! ## TemplateEngine.updateNextLink (src/src/services/template_engine.js) -/

/-- Value part of the next-anchor regex: after `class="`, the attribute value
up to the next `"` must contain `next-month`, and a `>` must follow later
(`[^"]*next-month[^"]*"[^>]*>`). -/
def tryClassValue (s : List Char) : Bool :=
  let v := s.takeWhile (fun c => c != '"')
  match s.drop v.length with
  | q :: rest2 => q == '"' && containsL "next-month".data v && rest2.contains '>'
  | [] => false

/-- Scan after a `<a` start for `[^>]+class="` followed by a matching value;
`gapLen` counts the `[^>]+` characters consumed so far. -/
def afterATag : Nat → List Char → Bool
  | _, [] => false
  | gapLen, c :: rest =>
    if gapLen ≥ 1 && startsWithL "class=\"".data (c :: rest) &&
        tryClassValue ((c :: rest).drop 7) then
      true
    else
      c != '>' && afterATag (gapLen + 1) rest

/-- `/<a[^>]+class="[^"]*next-month[^"]*"[^>]*>/.test(html)`: an active
forward-navigation anchor occurs somewhere in the page. -/
def hasNextAnchorL : List Char → Bool
  | [] => false
  | c :: rest =>
    (startsWithL "<a".data (c :: rest) && afterATag 0 (rest.drop 1)) || hasNextAnchorL rest

/-- The disabled forward-navigation placeholder the renderer emits. -/
def disabledNextSpan : String := "<span class=\"next-month disabled\"></span>"

/-- `TemplateEngine.updateNextLink`.  The `generateRelativePath` callback the
orchestrator passes is always `MonthlyGroupingService.generateRelativePath`,
inlined here. -/
def updateNextLink (html nextYearMonth currentYearMonth : String) : String :=
  if hasNextAnchorL html.data then html
  else
    match splitFirstS disabledNextSpan html with
    | some (pre, post) =>
      let nextPath := generateRelativePath currentYearMonth nextYearMonth
      pre ++ "<a href=\"" ++ nextPath ++ "\" class=\"next-month\">&laquo; " ++
        nextYearMonth ++ "</a>" ++ post
    | none => html

/-! ## FeedToHtml.mergeHtmlContent (src/unnamed/part_000) -/

/-- ECMAScript `GetSubstitution` for a two-capture regex replacement, as
`String.replace` applies it to the whole replacement string (interpolated
text included): `m` is the matched text, `b`/`a` the text before/after the
match, `g1`/`g2` the captures.  Recognised patterns: two dollars (a literal
dollar), dollar-ampersand (the match), dollar-backquote (text before),
dollar-apostrophe (text after), and the group references in one-digit
(`$1`, `$2`) and two-digit (`$01`, `$02`) form; any other dollar sequence
is left literal (the regexes here have no named groups, so a dollar before
`<` is literal too). -/
def getSubstitution (m b a g1 g2 : List Char) : List Char → List Char
  | [] => []
  | c :: rest =>
    if c = '$' then
      match rest with
      | [] => ['$']
      | c1 :: r =>
        if c1 = '$' then '$' :: getSubstitution m b a g1 g2 r
        else if c1 = '&' then m ++ getSubstitution m b a g1 g2 r
        else if c1 = Char.ofNat 96 then b ++ getSubstitution m b a g1 g2 r
        else if c1 = Char.ofNat 39 then a ++ getSubstitution m b a g1 g2 r
        else if c1.isDigit then
          match r with
          | c2 :: r2 =>
            if c2.isDigit then
              if (c1.toNat - 48) * 10 + (c2.toNat - 48) = 1 then
                g1 ++ getSubstitution m b a g1 g2 r2
              else if (c1.toNat - 48) * 10 + (c2.toNat - 48) = 2 then
                g2 ++ getSubstitution m b a g1 g2 r2
              else '$' :: c1 :: c2 :: getSubstitution m b a g1 g2 r2
            else if c1 = '1' then g1 ++ getSubstitution m b a g1 g2 (c2 :: r2)
            else if c1 = '2' then g2 ++ getSubstitution m b a g1 g2 (c2 :: r2)
            else '$' :: c1 :: getSubstitution m b a g1 g2 (c2 :: r2)
          | [] =>
            if c1 = '1' then g1
            else if c1 = '2' then g2
            else ['$', c1]
        else '$' :: c1 :: getSubstitution m b a g1 g2 r
    else c :: getSubstitution m b a g1 g2 rest

/-- `FeedToHtml.mergeHtmlContent`: extract the `<main>` inner regions of the
new and the existing page, concatenate them new-first, splice the result back
into the existing page's `<main>` region through the replacement template
(dollar-expanded over the interpolated entries HTML, as JS `replace` does),
and refresh the meta date. -/
def mergeHtmlContent (existingHtml newHtml : String) (now : JSDate) : String :=
  let newItemsHtml := extractMainInner newHtml
  let existingItemsHtml := extractMainInner existingHtml
  let mergedItemsHtml := newItemsHtml ++ "\n\n" ++ existingItemsHtml
  let replaced :=
    match findMainL existingHtml.data with
    | some (pre, openTag, inner, closeTxt, post) =>
      String.mk (pre ++
        getSubstitution (openTag ++ inner ++ closeTxt) pre post openTag closeTxt
          ("$1\n    ".data ++ (mergedItemsHtml.data ++ "\n    $2".data)) ++ post)
    | none => existingHtml
  updateMetaDate replaced now

/-! ## C8: updateNextLink is idempotent and degrades gracefully -/

/-! ## Template validation (src/src/services/template_engine.js
`validateTemplate`, src/src/models/html_template.js `validate`) -/

/-- The bare entries placeholder literal. -/
def phITEMS : String := "\x7b\x7bITEMS\x7d\x7d"

/-- The entries block opener literal. -/
def phItemsOpen : String := "\x7b\x7b#ITEMS\x7d\x7d"

/-- The entries block closer literal. -/
def phItemsClose : String := "\x7b\x7b/ITEMS\x7d\x7d"

/-- The main-title placeholder literal. -/
def phFeedTitle : String := "\x7b\x7bFEED_TITLE\x7d\x7d"

/-- `/\{\{#ITEMS\}\}[\s\S]*?\{\{\/ITEMS\}\}/.test(content)`: an opener with a
closer somewhere after it. -/
def hasItemsBlockS (content : String) : Bool :=
  match splitFirstS phItemsOpen content with
  | some (_, post) => containsS phItemsClose post
  | none => false

/-- Outcome of a validation step: a thrown error (if any) and the list of
placeholders reported missing by the `console.warn` branch. -/
structure TemplateValidation where
  error : Option String
  missing : List String
deriving DecidableEq, Repr

/-- `TemplateEngine.validateTemplate`: warn (never throw) about a missing
`FEED_TITLE` or entries region; throw exactly when the number of bare
`ITEMS` placeholders plus `#ITEMS` block openers differs from one. -/
def validateTemplate (content : String) : TemplateValidation :=
  let hasItemsPlaceholder := containsS phITEMS content
  let hasItemsBlock := hasItemsBlockS content
  let hasItems := hasItemsPlaceholder || hasItemsBlock
  let missing :=
    (if !(containsS phFeedTitle content) then [phFeedTitle] else []) ++
      (if !hasItems then [phITEMS ++ " or block form"] else [])
  let totalItemsCount := countS phITEMS content + countS phItemsOpen content
  if totalItemsCount ≠ 1 then
    { error := some "ITEMS region must appear exactly once in template", missing := missing }
  else
    { error := none, missing := missing }

/-- `HTMLTemplate.validate` (run by the constructor when a template is
loaded): throws on empty/blank content and on more than one entries region;
missing placeholders are only warned about. -/
def htmlTemplateValidate (content : String) : TemplateValidation :=
  if content = "" then
    { error := some "Template content is required and must be a string", missing := [] }
  else if jsTrim content = "" then
    { error := some "Template content cannot be empty", missing := [] }
  else
    let hasItems := containsS phITEMS content || hasItemsBlockS content
    let missing :=
      (if !(containsS phFeedTitle content) then [phFeedTitle] else []) ++
        (if !hasItems then [phITEMS ++ " or block form"] else [])
    let totalItemsCount := countS phITEMS content + countS phItemsOpen content
    if totalItemsCount > 1 then
      { error := some "ITEMS region must appear exactly once in template", missing := missing }
    else
      { error := none, missing := missing }

/-- The hard error raised before any rendering when a template is loaded and
validated (`FeedToHtml.convert` runs `loadTemplate`, whose `HTMLTemplate`
constructor validates, then `templateEngine.validateTemplate`). -/
def templateHardError (content : String) : Option String :=
  match (htmlTemplateValidate content).error with
  | some e => some e
  | none => (validateTemplate content).error

/-! ## C6: monthly grouping -/

/-- The month key an item would be bucketed under. -/
def keyOfItem (i : RSSItem) : Option String := i.pubDate.map getYearMonthKey

/-- Lookup of a bucket by key in the grouping accumulator. -/
def bucketOf (k : String) : List (String × List RSSItem) → List RSSItem
  | [] => []
  | (k', its) :: rest => if k' = k then its else bucketOf k rest

/-- The key format asserted by the claim: zero-padded four-digit year, dash,
two-digit month (spec-side definition, used only to refute the claim's
format statement). -/
def specYYYYMMFormat (k : String) : Bool :=
  match k.data with
  | [a, b, c, d, e, f, g] =>
    a.isDigit && b.isDigit && c.isDigit && d.isDigit && e == '-' && f.isDigit && g.isDigit
  | _ => false

/-- Fixture: an item published in May of year 999 (local calendar). -/
def i999 : RSSItem :=
  ⟨"a", "", "http://a/", some ⟨5, 999, 4, "", ""⟩, "", []⟩

/-- Fixture: an item published in January of year 1000 (local calendar). -/
def i1000 : RSSItem :=
  ⟨"b", "", "http://b/", some ⟨10, 1000, 0, "", ""⟩, "", []⟩

/-- Fixture: witness item, January 2024, time 1. -/
def iW1 : RSSItem :=
  ⟨"w1", "", "http://w1/", some ⟨1, 2024, 0, "", ""⟩, "", []⟩

/-- Fixture: witness item, January 2024, time 2. -/
def iW2 : RSSItem :=
  ⟨"w2", "", "http://w2/", some ⟨2, 2024, 0, "", ""⟩, "", []⟩

/-! ## C3: merge splices the new block before the old block -/

/-! ## FileWriter (src/src/services/file_writer.js) -/

/-- The filesystem as the engine observes it: an association list from path
to content; the first entry for a path wins, so prepending models an
overwriting `writeFileSync`. -/
structure FS where
  files : List (String × String)
deriving DecidableEq, Repr

/-- `readFileSync`/`existsSync` view. -/
def FS.lookup (fs : FS) (p : String) : Option String :=
  match fs.files.find? (fun e => e.1 == p) with
  | some e => some e.2
  | none => none

/-- `writeFileSync` (create or overwrite). -/
def FS.insert (fs : FS) (p c : String) : FS := ⟨(p, c) :: fs.files⟩

/-- `unlinkSync`. -/
def FS.erase (fs : FS) (p : String) : FS := ⟨fs.files.filter (fun e => !(e.1 == p))⟩

/-- An output file: target filename (relative to the output directory) and
rendered content (model of the `OutputFile` record the writer consumes). -/
structure OutputFile where
  filename : String
  content : String
deriving DecidableEq, Repr

/-- `resolve(outputDir, filename)` for the relative monthly filenames the
converter produces. -/
def resolvePath (outputDir filename : String) : String := outputDir ++ "/" ++ filename

/-- `FileWriter.cleanupFiles`: delete every path in the list (failures of the
individual deletions are logged and ignored by the source; deletion itself is
modelled as always effective). -/
def cleanupFiles (fs : FS) (paths : List String) : FS :=
  paths.foldl FS.erase fs

/-- Loop body of `FileWriter.writeFiles`: write each file in order, tracking
written paths; on the first failing write, delete everything already written
in this batch and propagate the filesystem error.  `fail p = true` models
`writeFileSync` throwing at path `p`. -/
def writeFilesGo (fail : String → Bool) (outputDir : String) :
    FS → List String → List OutputFile → FS × Except String (List String)
  | fs, written, [] => (fs, Except.ok written)
  | fs, written, f :: rest =>
    let p := resolvePath outputDir f.filename
    if fail p then
      (cleanupFiles fs written, Except.error "FILESYSTEM write failed")
    else
      writeFilesGo fail outputDir (fs.insert p f.content) (written ++ [p]) rest

/-- `FileWriter.writeFiles`. -/
def writeFiles (fail : String → Bool) (outputDir : String) (fs : FS)
    (outputFiles : List OutputFile) : FS × Except String (List String) :=
  writeFilesGo fail outputDir fs [] outputFiles

/-! ## TemplateEngine rendering (src/src/services/template_engine.js) -/

/-- The engine's mutable state: the per-item template, initialised to the
built-in article template and overwritten whenever a rendered template
carries an `#ITEMS` block. -/
structure TemplateEngine where
  itemTemplate : String
deriving DecidableEq, Repr

/-- The built-in per-item template from the `TemplateEngine` constructor. -/
def defaultItemTemplate : String :=
  "<article>\n    <h2><a href=\"\x7b\x7bITEM_LINK\x7d\x7d\">\x7b\x7bITEM_TITLE\x7d\x7d</a></h2>\n    <div class=\"meta\">\n        <time>\x7b\x7bITEM_DATE\x7d\x7d</time>\n        \x7b\x7b#ITEM_AUTHOR\x7d\x7d<span class=\"author\">by \x7b\x7bITEM_AUTHOR\x7d\x7d</span>\x7b\x7b/ITEM_AUTHOR\x7d\x7d\n    </div>\n    <div class=\"content\">\x7b\x7bITEM_DESCRIPTION\x7d\x7d</div>\n    \x7b\x7b#ITEM_CATEGORIES\x7d\x7d\n    <div class=\"categories\">\n        Tags: \x7b\x7bITEM_CATEGORIES\x7d\x7d\n    </div>\n    \x7b\x7b/ITEM_CATEGORIES\x7d\x7d\n</article>"

/-- A fresh engine (`new TemplateEngine(...)`). -/
def initTemplateEngine : TemplateEngine := ⟨defaultItemTemplate⟩

/-- `TemplateEngine.extractItemTemplate`: pull the body out of the first
`#ITEMS` block (trimmed), collapsing the block to a bare `ITEMS` marker. -/
def extractItemTemplate (templateContent : String) : Option String × String :=
  match splitFirstS phItemsOpen templateContent with
  | some (pre, mid) =>
    match splitFirstS phItemsClose mid with
    | some (body, post) => (some (jsTrim body), pre ++ phITEMS ++ post)
    | none => (none, templateContent)
  | none => (none, templateContent)

/-- `escapeHTML`: chained global replacements, ampersand first. -/
def escapeHTML (text : String) : String :=
  if text = "" then ""
  else
    replaceAllS (String.mk [Char.ofNat 39]) "&#39;"
      (replaceAllS "\"" "&quot;"
        (replaceAllS ">" "&gt;"
          (replaceAllS "<" "&lt;"
            (replaceAllS "&" "&amp;" text))))

/-- First match of an HTML tag-pair regex `<name[^>]*>.*?</name>` (dotall,
case-insensitive): returns the text before the match and after it. -/
def findTagBlock (openLit closeLit : List Char) : List Char → Option (List Char × List Char)
  | [] => none
  | c :: rest =>
    match (if startsWithCIL openLit (c :: rest) then
        match ((c :: rest).drop openLit.length).drop
            (((c :: rest).drop openLit.length).takeWhile (fun x => x != '>')).length with
        | '>' :: body =>
          match splitFirstCIL closeLit body with
          | some (_, _, post) => some post
          | none => none
        | _ => none
      else none) with
    | some post => some ([], post)
    | none => (findTagBlock openLit closeLit rest).map (fun r => (c :: r.1, r.2))

/-- Global removal of a tag-pair regex's matches; `fuel` bounds the number of
matches (the string length always suffices). -/
def stripTagPairsAux (openLit closeLit : List Char) : Nat → List Char → List Char
  | 0, l => l
  | fuel + 1, l =>
    match findTagBlock openLit closeLit l with
    | none => l
    | some (pre, post) => pre ++ stripTagPairsAux openLit closeLit fuel post

/-- JS `\w`. -/
def isWordChar (c : Char) : Bool := c.isAlpha || c.isDigit || c == '_'

/-- First match of `/on\w+="[^"]*"/i`: text before and after the match. -/
def findEventAttr : List Char → Option (List Char × List Char)
  | [] => none
  | c :: rest =>
    match (if startsWithCIL "on".data (c :: rest) then
        let after := (c :: rest).drop 2
        let w := after.takeWhile isWordChar
        if w.isEmpty then none
        else
          match after.drop w.length with
          | '=' :: '"' :: v =>
            match v.drop (v.takeWhile (fun x => x != '"')).length with
            | '"' :: post => some post
            | _ => none
          | _ => none
      else none) with
    | some post => some ([], post)
    | none => (findEventAttr rest).map (fun r => (c :: r.1, r.2))

/-- Global removal of inline event-handler attributes. -/
def stripEventAttrsAux : Nat → List Char → List Char
  | 0, l => l
  | fuel + 1, l =>
    match findEventAttr l with
    | none => l
    | some (pre, post) => pre ++ stripEventAttrsAux fuel post

/-- `processItemDescription`: strip `script` and `iframe` tag pairs and
inline event-handler attributes (the final `src="/..."` rewrite of the
source replaces each match with itself and is therefore the identity). -/
def processItemDescription (description : String) : String :=
  if description = "" then ""
  else
    let s1 := stripTagPairsAux "<script".data "</script>".data description.data.length
      description.data
    let s2 := stripTagPairsAux "<iframe".data "</iframe>".data s1.length s1
    String.mk (stripEventAttrsAux s2.length s2)

/-- `formatItemDate`: the `toLocaleDateString` rendering carried by the
date (environment-supplied), empty when there is no date. -/
def formatItemDate (item : RSSItem) : String :=
  match item.pubDate with
  | none => ""
  | some d => d.locale

/-- `RSSItem.hasAuthor`. -/
def itemHasAuthor (i : RSSItem) : Bool := !(jsTrim i.author == "")

/-- `RSSItem.hasCategories`. -/
def itemHasCategories (i : RSSItem) : Bool := !i.categories.isEmpty

/-- Conditional block marker literals. -/
def phAuthorOpen : String := "\x7b\x7b#ITEM_AUTHOR\x7d\x7d"

/-- Author block closer. -/
def phAuthorClose : String := "\x7b\x7b/ITEM_AUTHOR\x7d\x7d"

/-- Categories block opener. -/
def phCatOpen : String := "\x7b\x7b#ITEM_CATEGORIES\x7d\x7d"

/-- Categories block closer. -/
def phCatClose : String := "\x7b\x7b/ITEM_CATEGORIES\x7d\x7d"

/-- Global removal of `open…close` marker blocks (non-greedy, dotall), for
the conditional sections of the per-item template. -/
def stripBlocksAux (openM closeM : List Char) : Nat → List Char → List Char
  | 0, l => l
  | fuel + 1, l =>
    match splitFirstL openM l with
    | none => l
    | some (pre, mid) =>
      match splitFirstL closeM mid with
      | none => l
      | some (_, post) => pre ++ stripBlocksAux openM closeM fuel post

/-- String wrapper for `stripBlocksAux`. -/
def stripBlocks (openM closeM s : String) : String :=
  String.mk (stripBlocksAux openM.data closeM.data s.data.length s.data)

/-- `TemplateEngine.generateItemHTML`: strip or keep the conditional author
and categories sections, then substitute the item placeholders. -/
def generateItemHTML (eng : TemplateEngine) (item : RSSItem) : String :=
  let title := escapeHTML (if item.title = "" then "Untitled" else item.title)
  let link := if item.link = "" then "#" else item.link
  let desc := processItemDescription item.description
  let date := formatItemDate item
  let author := if itemHasAuthor item then escapeHTML item.author else ""
  let cats := if itemHasCategories item then
      escapeHTML (String.intercalate ", " item.categories)
    else ""
  let html0 := eng.itemTemplate
  let html1 := if itemHasAuthor item then
      replaceAllS phAuthorClose "" (replaceAllS phAuthorOpen "" html0)
    else stripBlocks phAuthorOpen phAuthorClose html0
  let html2 := if itemHasCategories item then
      replaceAllS phCatClose "" (replaceAllS phCatOpen "" html1)
    else stripBlocks phCatOpen phCatClose html1
  [("ITEM_TITLE", title), ("ITEM_LINK", link), ("ITEM_DESCRIPTION", desc),
    ("ITEM_DATE", date), ("ITEM_AUTHOR", author), ("ITEM_CATEGORIES", cats)].foldl
    (fun acc kv => replaceAllS ("\x7b\x7b" ++ kv.1 ++ "\x7d\x7d") kv.2 acc) html2

/-- `TemplateEngine.generateItemsHTML`. -/
def generateItemsHTML (eng : TemplateEngine) (items : List RSSItem) : String :=
  if items.isEmpty then "<p>No items available.</p>"
  else String.intercalate "\n\n" (items.map (generateItemHTML eng))

/-- `TemplateEngine.prepareFeedValues` (substitution order = insertion
order). -/
def prepareFeedValues (feed : RSSFeed) : List (String × String) :=
  [("FEED_TITLE", feed.title), ("FEED_DESCRIPTION", feed.description),
    ("FEED_LINK", feed.link),
    ("FEED_LANGUAGE", if feed.language = "" then "en" else feed.language),
    ("TOTAL_ITEMS", toString feed.getItemCount)]

/-- `TemplateEngine.createMonthlyNavigation`. -/
def createMonthlyNavigation (currentYearMonth : String) (adj : AdjacentMonths) : String :=
  match adj.prev, adj.next with
  | none, none => ""
  | _, _ =>
    "<nav class=\"monthly-nav\">\n" ++
      (match adj.next with
        | some next => "  <a href=\"" ++ generateRelativePath currentYearMonth next ++
            "\" class=\"next-month\">&laquo; " ++ next ++ "</a>\n"
        | none => "  <span class=\"next-month disabled\"></span>\n") ++
      "  <span class=\"current-month\">" ++ currentYearMonth ++ "</span>\n" ++
      (match adj.prev with
        | some prev => "  <a href=\"" ++ generateRelativePath currentYearMonth prev ++
            "\" class=\"prev-month\">" ++ prev ++ " &raquo;</a>\n"
        | none => "  <span class=\"prev-month disabled\"></span>\n") ++
      "</nav>"

/-- `new Date().toISOString().replace('T', ' ').substring(0, 19)`. -/
def generationDate (now : JSDate) : String :=
  let replaced :=
    match splitFirstS "T" now.iso with
    | some (pre, post) => pre ++ " " ++ post
    | none => now.iso
  String.mk (replaced.data.take 19)

/-- Options record of `generateHTML`. -/
structure GenOptions where
  yearMonth : Option String
  pageItems : Option (List RSSItem)
  adjacentMonths : Option AdjacentMonths
deriving Repr

/-- `TemplateEngine.generateHTML`: extract a block-form item template and,
when it is truthy (non-empty after the trim — JS `if (itemTemplate)`), keep
it as the engine's new state; then substitute the value list into the
processed outer template.  Returns the HTML and the updated engine. -/
def generateHTML (eng : TemplateEngine) (feed : RSSFeed) (templateContent : String)
    (opts : GenOptions) (now : JSDate) : String × TemplateEngine :=
  let extracted := extractItemTemplate templateContent
  let eng1 := match extracted.1 with
    | some t => if t = "" then eng else ⟨t⟩
    | none => eng
  let monthlyVals := match opts.yearMonth with
    | some ym => [("YEAR_MONTH", ym), ("META_DATE", now.iso),
        ("MONTHLY_NAV", match opts.adjacentMonths with
          | some adj => createMonthlyNavigation ym adj
          | none => "")]
    | none => []
  let itemsToRender := opts.pageItems.getD feed.items
  let itemsHtml := generateItemsHTML eng1 itemsToRender
  let vals := prepareFeedValues feed ++ monthlyVals ++
    [("ITEMS", itemsHtml), ("GENERATION_DATE", generationDate now)]
  (vals.foldl (fun acc kv => replaceAllS ("\x7b\x7b" ++ kv.1 ++ "\x7d\x7d") kv.2 acc)
    extracted.2, eng1)

/-- Fixture: feed with one item for the statefulness check. -/
def c10Feed : RSSFeed := ⟨"F", "", "", "", [⟨"T", "", "http://x/", none, "", []⟩]⟩

/-- Fixture: a fixed current time. -/
def c10Now : JSDate := ⟨0, 2025, 0, "2025-01-01T00:00:00.000Z", ""⟩

/-- Fixture: outer template using the bare entries placeholder. -/
def c10Bare : String := "\x7b\x7bFEED_TITLE\x7d\x7d\x7b\x7bITEMS\x7d\x7d"

/-- Fixture: outer template using the block entries form with body `X`. -/
def c10Block : String := "\x7b\x7bFEED_TITLE\x7d\x7d\x7b\x7b#ITEMS\x7d\x7dX\x7b\x7b/ITEMS\x7d\x7d"

/-- Fixture: options without monthly values. -/
def c10Opts : GenOptions := ⟨none, none, none⟩

/-! ## FeedToHtml.convert (src/unnamed/part_000) -/

/-- The services `convert` calls on page HTML, passed as data: these are the
injected `HtmlParserService` scanners and the template engine's page
renderer; the orchestration claims quantify over their outputs.  `fail`
models which paths `writeFileSync` throws at, `now` the current time. -/
structure ConvertEnv where
  fail : String → Bool
  extractDate : String → Option JSDate
  extractLinks : String → List String
  renderPage : String → List RSSItem → AdjacentMonths → String
  now : JSDate

/-- The per-bucket body of `convert`'s loop: decide between skip
(`NO_CHANGE`), update (merge into the existing page) and create (fresh
page), returning the output file for this bucket (path and final HTML) and
the navigation-patch request when a brand-new page has an earlier month. -/
def processBucket (env : ConvertEnv) (outputDir : String) (avail : List String)
    (fs : FS) (ym : String) (items : List RSSItem) :
    Option ((String × String) × Option (String × String)) :=
  let filePath := generateFilePath ym outputDir
  let adj := findAdjacentMonths ym avail
  match fs.lookup filePath with
  | some existingHtml =>
    let lastDate := env.extractDate existingHtml
    let links := env.extractLinks existingHtml
    let newItems := filterNewItems items lastDate links
    if newItems.isEmpty then none
    else
      let htmlContent := env.renderPage ym newItems adj
      some ((filePath, mergeHtmlContent existingHtml htmlContent env.now), none)
  | none =>
    let htmlContent := env.renderPage ym items adj
    some ((filePath, htmlContent),
      match adj.prev with
      | some prev => some (ym, prev)
      | none => none)

/-- `convert`'s loop over the monthly groups (reads only; no file is written
until after the loop). -/
def convertLoop (env : ConvertEnv) (outputDir : String) (avail : List String) (fs : FS) :
    List (String × List RSSItem) → List (String × String) × List (String × String)
  | [] => ([], [])
  | (ym, items) :: rest =>
    let tail := convertLoop env outputDir avail fs rest
    match processBucket env outputDir avail fs ym items with
    | none => tail
    | some (o, c) =>
      (o :: tail.1,
        (match c with
          | some pair => [pair]
          | none => []) ++ tail.2)

/-- The batch-write phase (`fileWriter.writeFiles` applied to the collected
output files, whose paths are the buckets' pages; the `OutputFile` record is
modelled from the spec's `{outputRoot}/{YYYY}/{YYYY-MM}.html` layout, its
source file not being part of the archive). -/
def writeBatchGo (fail : String → Bool) :
    FS → List String → List (String × String) → FS × Except String (List String)
  | fs, written, [] => (fs, Except.ok written)
  | fs, written, (p, c) :: rest =>
    if fail p then
      (cleanupFiles fs written, Except.error "FILESYSTEM write failed")
    else
      writeBatchGo fail (fs.insert p c) (written ++ [p]) rest

/-- The navigation-patch phase: for each newly created page with an earlier
month, open that earlier page and activate its next-month link, writing the
file back only when the patch changed it. -/
def applyNavPatches (outputDir : String) :
    FS → List String → List (String × String) → FS × List String
  | fs, log, [] => (fs, log)
  | fs, log, (ym, prev) :: rest =>
    let prevPath := generateFilePath prev outputDir
    match fs.lookup prevPath with
    | some prevHtml =>
      let updated := updateNextLink prevHtml ym prev
      if updated == prevHtml then
        applyNavPatches outputDir fs log rest
      else
        applyNavPatches outputDir (fs.insert prevPath updated) (log ++ [prevPath]) rest
    | none => applyNavPatches outputDir fs log rest

/-- Result of a `convert` run: the final filesystem, the batch-phase write
paths, the navigation-patch write paths, and whether a write failed. -/
structure ConvertResult where
  fs : FS
  batchPaths : List String
  patchPaths : List String
  failed : Bool
deriving Repr

/-- `FeedToHtml.convert` (the filesystem-effecting core, after fetch, parse
and template validation): group the items by month, run the bucket loop,
write the collected files, then patch the predecessors of newly created
pages.  When no bucket produced output, nothing at all is written. -/
def convert (env : ConvertEnv) (outputDir : String) (fs : FS)
    (items : List RSSItem) : ConvertResult :=
  let groups := groupItemsByMonth items
  let avail := groups.map Prod.fst
  let loopRes := convertLoop env outputDir avail fs groups
  if loopRes.1.isEmpty then ⟨fs, [], [], false⟩
  else
    match writeBatchGo env.fail fs [] loopRes.1 with
    | (fs1, Except.ok paths) =>
      let patched := applyNavPatches outputDir fs1 [] loopRes.2
      ⟨patched.1, paths, patched.2, false⟩
    | (fs1, Except.error _) => ⟨fs1, [], [], true⟩

/-! ## C5: per-bucket write discipline and the navigation-patch exception -/

/-- A December 2024 entry whose link the existing December page already knows. -/
def itemDec12 : RSSItem := ⟨"old", "", "http://a/", some ⟨5, 2024, 11, "", ""⟩, "", []⟩

/-- A January 2025 entry for a month with no page yet. -/
def itemJan25 : RSSItem := ⟨"new", "", "http://b/", some ⟨10, 2025, 0, "", ""⟩, "", []⟩

/-- The existing December page: carries the disabled next-month placeholder
and no active next-month anchor. -/
def c5OldPage : String := "<nav><span class=\"next-month disabled\"></span></nav>"

/-- Filesystem holding only the December page. -/
def c5Fs : FS := ⟨[("out/2024/2024-12.html", c5OldPage)]⟩

/-- Environment for the two-bucket run: no write ever fails, the existing
page's known links cover the December entry, rendering is a stub. -/
def c5Env : ConvertEnv :=
  ⟨fun _ => false, fun _ => none, fun _ => ["http://a/"],
    fun _ _ _ => "x", ⟨0, 0, 0, "", ""⟩⟩

/-- An entry whose month page already exists and knows its link. -/
def c2Item : RSSItem := ⟨"t", "", "http://x/", some ⟨3, 2024, 0, "", ""⟩, "", []⟩

/-- Filesystem after the first run: the January 2024 page exists. -/
def c2Fs : FS := ⟨[("out/2024/2024-01.html", "page")]⟩

/-- Environment where the existing page's known links cover the entry. -/
def c2Env : ConvertEnv :=
  ⟨fun _ => false, fun _ => none, fun _ => ["http://x/"],
    fun _ _ _ => "r", ⟨0, 0, 0, "", ""⟩⟩

/-- An existing page whose `<main>` region holds one old entry. -/
def c3xExisting : String := "<main>old</main>"

/-- A freshly rendered page whose entries HTML contains the `$&` replacement
pattern (realizable feed content: any description with a dollar sign before
an ampersand, digit or quote). -/
def c3xNew : String := "<main>$&</main>"

/-- A fixed current time for the dollar-expansion run. -/
def c3xNow : JSDate := ⟨0, 0, 0, "", ""⟩

/-! ## Theorems -/

/-- C1: `filterNewItems` returns exactly the input items that have a
`pubDate` and whose link is not among the known links, in input order
(a sublist of the input); the `lastDate` argument has no effect on the
result, and no returned item carries an already-known link. -/
theorem C1_filterNewItems_linkOnly (items : List RSSItem) (d₁ d₂ : Option JSDate)
    (links : List String) :
    filterNewItems items d₁ links =
        items.filter (fun i => i.pubDate.isSome && !(links.contains i.link))
      ∧ filterNewItems items d₁ links = filterNewItems items d₂ links
      ∧ (filterNewItems items d₁ links).Sublist items
      ∧ (filterNewItems items d₁ links).all
          (fun i => i.pubDate.isSome && !(links.contains i.link)) = true := by
  have hfun : ∀ i : RSSItem,
      (match i.pubDate with
        | none => false
        | some _ => !(links.contains i.link)) =
      (i.pubDate.isSome && !(links.contains i.link)) := by
    intro i; cases i.pubDate <;> simp
  have heq : filterNewItems items d₁ links =
      items.filter (fun i => i.pubDate.isSome && !(links.contains i.link)) := by
    unfold filterNewItems
    exact List.filter_congr (fun i _ => hfun i)
  refine ⟨heq, rfl, ?_, ?_⟩
  · unfold filterNewItems; exact List.filter_sublist items
  · rw [heq]
    simp only [List.all_eq_true]
    intro i hi
    exact (List.mem_filter.mp hi).2

/-- C7: `generateRelativePath` depends only on its two key arguments: equal
year components give the bare `toKey.html` filename, different years give
`../{toYear}/{toKey}.html`; in particular the 2024-12 → 2025-01 cross-year
pair produces `../2025/2025-01.html`. -/
theorem C7_generateRelativePath_spec (fromKey toKey : String) :
    generateRelativePath fromKey toKey =
        (if yearOf fromKey = yearOf toKey then toKey ++ ".html"
         else "../" ++ yearOf toKey ++ "/" ++ toKey ++ ".html")
      ∧ generateRelativePath "2024-12" "2025-01" = "../2025/2025-01.html" := by
  constructor
  · rfl
  · decide

/-- A literal is a prefix of itself followed by anything. -/
theorem startsWithL_append_self (l t : List Char) : startsWithL l (l ++ t) = true := by
  induction l with
  | nil => simp [startsWithL]
  | cons c cs ih => simp [startsWithL, ih]

/-- An anchor match in a suffix is a match in the whole string. -/
theorem hasNextAnchorL_append_right (a b : List Char) (h : hasNextAnchorL b = true) :
    hasNextAnchorL (a ++ b) = true := by
  induction a with
  | nil => simpa
  | cons c cs ih =>
    simp only [List.cons_append, hasNextAnchorL, Bool.or_eq_true]
    exact Or.inr ih

/-- `takeWhile` runs through a block of satisfying characters and stops at the
first failing one. -/
theorem takeWhile_append_cons (p : Char → Bool) (a : List Char) (q : Char) (r : List Char)
    (ha : ∀ c ∈ a, p c = true) (hq : p q = false) :
    (a ++ q :: r).takeWhile p = a := by
  induction a with
  | nil => simp [List.takeWhile, hq]
  | cons c cs ih =>
    have hc : p c = true := ha c (by simp)
    simp only [List.cons_append, List.takeWhile, hc]
    simp only [List.append_eq] at *
    rw [ih (fun x hx => ha x (by simp [hx]))]

/-- The scan after `<a` reaches a `class="` occurrence through `>`‑free
characters and accepts. -/
theorem afterATag_reach (ys : List Char) (hys : startsWithL "class=\"".data ys = true)
    (hval : tryClassValue (ys.drop 7) = true) :
    ∀ (xs : List Char) (g : Nat), (∀ c ∈ xs, c ≠ '>') → 1 ≤ g + xs.length →
      afterATag g (xs ++ ys) = true := by
  intro xs
  induction xs with
  | nil =>
    intro g _ hg
    simp only [List.nil_append]
    obtain ⟨c, rest, rfl⟩ : ∃ c rest, ys = c :: rest := by
      cases ys with
      | nil => simp [startsWithL] at hys
      | cons c rest => exact ⟨c, rest, rfl⟩
    have hg1 : g ≥ 1 := by simpa using hg
    rw [afterATag]
    have hcond : (decide (g ≥ 1) && startsWithL "class=\"".data (c :: rest) &&
        tryClassValue ((c :: rest).drop 7)) = true := by
      simp only [hys, hval, Bool.and_true]
      simp [hg1]
    rw [if_pos hcond]
  | cons x xs' ih =>
    intro g hx hg
    simp only [List.cons_append]
    rw [afterATag]
    split
    · rfl
    · have hxne : (x != '>') = true := by
        have := hx x (by simp)
        simpa using this
      have hrec := ih (g + 1) (fun c hcm => hx c (by simp [hcm])) (by omega)
      simp [hxne, hrec]

/-- The freshly inserted active next-month anchor matches the active-anchor
regex whatever follows it, provided the link path contains no `>`. -/
theorem hasNextAnchorL_inserted (path nym : String) (post : List Char)
    (hp : '>' ∉ path.data) :
    hasNextAnchorL (("<a href=\"" ++ path ++ "\" class=\"next-month\">&laquo; " ++
      nym ++ "</a>").data ++ post) = true := by
  have e1 : "<a href=\"".data = '<' :: 'a' :: " href=\"".data := rfl
  have e2 : "\" class=\"next-month\">&laquo; ".data =
      "\" ".data ++ "class=\"".data ++
        ("next-month".data ++ '"' :: '>' :: "&laquo; ".data) := rfl
  have hdata : ("<a href=\"" ++ path ++ "\" class=\"next-month\">&laquo; " ++
      nym ++ "</a>").data ++ post =
      '<' :: 'a' :: ((" href=\"".data ++ path.data ++ "\" ".data) ++
        ("class=\"".data ++ ("next-month".data ++ '"' :: '>' ::
          ("&laquo; ".data ++ nym.data ++ "</a>".data ++ post)))) := by
    simp only [String.data_append, e1, e2]
    simp [List.append_assoc]
  rw [hdata]
  have hys : startsWithL "class=\"".data ("class=\"".data ++ ("next-month".data ++ '"' :: '>' ::
      ("&laquo; ".data ++ nym.data ++ "</a>".data ++ post))) = true :=
    startsWithL_append_self _ _
  have hlen7 : ("class=\"".data).length = 7 := rfl
  have hdrop : ("class=\"".data ++ ("next-month".data ++ '"' :: '>' ::
      ("&laquo; ".data ++ nym.data ++ "</a>".data ++ post))).drop 7 =
      "next-month".data ++ '"' :: '>' ::
        ("&laquo; ".data ++ nym.data ++ "</a>".data ++ post) := by
    rw [← hlen7, List.drop_left]
  have hval : tryClassValue (("class=\"".data ++ ("next-month".data ++ '"' :: '>' ::
      ("&laquo; ".data ++ nym.data ++ "</a>".data ++ post))).drop 7) = true := by
    rw [hdrop]
    unfold tryClassValue
    have htw : ("next-month".data ++ '"' :: '>' ::
        ("&laquo; ".data ++ nym.data ++ "</a>".data ++ post)).takeWhile
        (fun c => c != '"') = "next-month".data := by
      apply takeWhile_append_cons
      · decide
      · decide
    rw [htw]
    have hlen10 : ("next-month".data).length = 10 := rfl
    have hdrop2 : ("next-month".data ++ '"' :: '>' ::
        ("&laquo; ".data ++ nym.data ++ "</a>".data ++ post)).drop
          ("next-month".data).length =
        '"' :: '>' :: ("&laquo; ".data ++ nym.data ++ "</a>".data ++ post) :=
      List.drop_left _ _
    rw [hlen10] at hdrop2
    simp only [hdrop2]
    have hcont : containsL "next-month".data "next-month".data = true := by decide
    simp [hcont, List.contains_cons]
  have hxs : ∀ c ∈ (" href=\"".data ++ path.data ++ "\" ".data), c ≠ '>' := by
    intro c hc he
    subst he
    rcases List.mem_append.mp hc with hc1 | hc2
    · rcases List.mem_append.mp hc1 with hc3 | hc4
      · exact absurd hc3 (by decide)
      · exact hp hc4
    · exact absurd hc2 (by decide)
  have hglen : 1 ≤ 0 + (" href=\"".data ++ path.data ++ "\" ".data).length := by
    have : (" href=\"".data).length = 7 := rfl
    simp [List.length_append, this]
  have hreach := afterATag_reach _ hys hval (" href=\"".data ++ path.data ++ "\" ".data) 0
    hxs hglen
  rw [hasNextAnchorL]
  have hsw : startsWithL "<a".data ('<' :: 'a' :: ((" href=\"".data ++ path.data ++
      "\" ".data) ++ ("class=\"".data ++ ("next-month".data ++ '"' :: '>' ::
        ("&laquo; ".data ++ nym.data ++ "</a>".data ++ post))))) = true := by
    have hl : "<a".data = ['<', 'a'] := rfl
    rw [hl]
    simp [startsWithL]
  simp only [hsw, Bool.true_and, List.drop_succ_cons, List.drop_zero, Bool.or_eq_true]
  exact Or.inl hreach

/-- The year component is made of the key's own characters. -/
theorem yearOf_gtFree (s : String) (h : '>' ∉ s.data) : '>' ∉ (yearOf s).data := by
  intro hm
  exact h ((List.takeWhile_sublist _).subset hm)

/-- A relative path generated from `>`‑free month keys is `>`‑free. -/
theorem generateRelativePath_gtFree (cur next : String) (h1 : '>' ∉ next.data) :
    '>' ∉ (generateRelativePath cur next).data := by
  unfold generateRelativePath
  split
  · intro hm
    rw [String.data_append] at hm
    rcases List.mem_append.mp hm with h | h
    · exact h1 h
    · exact absurd h (by decide)
  · intro hm
    simp only [String.data_append] at hm
    rcases List.mem_append.mp hm with h | h
    · rcases List.mem_append.mp h with h | h
      · rcases List.mem_append.mp h with h | h
        · rcases List.mem_append.mp h with h | h
          · exact absurd h (by decide)
          · exact yearOf_gtFree next h1 h
        · exact absurd h (by decide)
      · exact h1 h
    · exact absurd h (by decide)

/-- A string that does not contain the needle has no first occurrence. -/
theorem splitFirstS_eq_none_of_not_contains (needle s : String)
    (h : containsS needle s = false) : splitFirstS needle s = none := by
  unfold containsS containsL at h
  unfold splitFirstS
  cases hs : splitFirstL needle.data s.data with
  | none => rfl
  | some p => rw [hs] at h; simp at h

/-- With an active anchor already present, `updateNextLink` is the identity. -/
theorem updateNextLink_fixed (s n c : String) (h : hasNextAnchorL s.data = true) :
    updateNextLink s n c = s := by
  simp [updateNextLink, h]

/-- C8: `updateNextLink` is idempotent (applying it twice equals applying it
once), returns its input unchanged when the page already holds an active
next-month anchor, and returns its input unchanged when neither an active
anchor nor the disabled placeholder occurs; being a total function it never
raises.  The only well-formedness assumption is that the target month key
contains no `>` character (true of every `YYYY-MM` key). -/
theorem C8_updateNextLink_idempotent (html nextYM curYM : String)
    (hnext : '>' ∉ nextYM.data) :
    updateNextLink (updateNextLink html nextYM curYM) nextYM curYM =
        updateNextLink html nextYM curYM
      ∧ (hasNextAnchorL html.data = true → updateNextLink html nextYM curYM = html)
      ∧ (hasNextAnchorL html.data = false → containsS disabledNextSpan html = false →
          updateNextLink html nextYM curYM = html) := by
  refine ⟨?_, ?_, ?_⟩
  · by_cases hA : hasNextAnchorL html.data = true
    · simp [updateNextLink, hA]
    · have hA' : hasNextAnchorL html.data = false := by
        simpa using hA
      cases hsp : splitFirstS disabledNextSpan html with
      | none =>
        have hfix : updateNextLink html nextYM curYM = html := by
          unfold updateNextLink
          rw [if_neg (by simp [hA']), hsp]
        rw [hfix]
        exact hfix
      | some p =>
        obtain ⟨pre, post⟩ := p
        have hpath : '>' ∉ (generateRelativePath curYM nextYM).data :=
          generateRelativePath_gtFree curYM nextYM hnext
        have hres : updateNextLink html nextYM curYM =
            pre ++ "<a href=\"" ++ generateRelativePath curYM nextYM ++
              "\" class=\"next-month\">&laquo; " ++ nextYM ++ "</a>" ++ post := by
          unfold updateNextLink
          rw [if_neg (by simp [hA']), hsp]
        have hin := hasNextAnchorL_inserted (generateRelativePath curYM nextYM)
          nextYM post.data hpath
        have hfull : hasNextAnchorL (pre ++ "<a href=\"" ++
            generateRelativePath curYM nextYM ++ "\" class=\"next-month\">&laquo; " ++
            nextYM ++ "</a>" ++ post).data = true := by
          have h2 := hasNextAnchorL_append_right pre.data _ hin
          simp only [String.data_append, List.append_assoc] at h2 ⊢
          exact h2
        rw [hres]
        exact updateNextLink_fixed _ _ _ hfull
  · intro h
    simp [updateNextLink, h]
  · intro h hc
    unfold updateNextLink
    rw [if_neg (by simp [h]), splitFirstS_eq_none_of_not_contains _ _ hc]

/-- Witness for C8 at a concrete page holding only the disabled placeholder
and the concrete keys 2024-12 → 2025-01. -/
theorem C8_updateNextLink_idempotent_witness :
    '>' ∉ ("2025-01" : String).data ∧
      updateNextLink
          (updateNextLink "<nav><span class=\"next-month disabled\"></span></nav>"
            "2025-01" "2024-12")
          "2025-01" "2024-12" =
        updateNextLink "<nav><span class=\"next-month disabled\"></span></nav>"
          "2025-01" "2024-12" :=
  ⟨by decide,
    (C8_updateNextLink_idempotent "<nav><span class=\"next-month disabled\"></span></nav>"
      "2025-01" "2024-12" (by decide)).1⟩

/-- A contained literal occurs at least once in the count. -/
theorem countL_pos_of_contains (needle hay : List Char) (hne : needle ≠ [])
    (h : containsL needle hay = true) : 1 ≤ countL needle hay := by
  unfold countL
  induction hay with
  | nil =>
    unfold containsL splitFirstL at h
    simp [List.isEmpty_iff, hne] at h
  | cons c rest ih =>
    rw [countLAux]
    by_cases hs : startsWithL needle (c :: rest) = true
    · rw [if_pos ⟨hne, hs⟩]; omega
    · rw [if_neg (fun hco => hs hco.2)]
      apply ih
      unfold containsL splitFirstL at h
      rw [if_neg (by simp [hs])] at h
      unfold containsL
      cases hx : splitFirstL needle rest with
      | none => rw [hx] at h; simp at h
      | some p => simp

/-- C4 counterexample: a template with exactly one `ITEMS` placeholder but no
`FEED_TITLE` marker passes both validation steps without any error — the
missing main-title marker is only reported in the warn list, contradicting
the claim that it raises a hard configuration error. -/
theorem C4_missing_title_only_warns :
    containsS phFeedTitle "<html>\x7b\x7bITEMS\x7d\x7d</html>" = false
      ∧ templateHardError "<html>\x7b\x7bITEMS\x7d\x7d</html>" = none
      ∧ phFeedTitle ∈ (validateTemplate "<html>\x7b\x7bITEMS\x7d\x7d</html>").missing := by
  decide

/-- C4 (amended): template validation raises a hard error before rendering
exactly when the content is empty/blank or the number of entries regions
(bare `ITEMS` placeholders plus `#ITEMS` block openers) differs from one —
not both forms, not zero, not several; a missing `FEED_TITLE` marker is only
added to the warning list and never causes an error. -/
theorem C4_template_validation_amended (content : String) :
    (templateHardError content = none ↔
        (content ≠ "" ∧ jsTrim content ≠ "" ∧
          countS phITEMS content + countS phItemsOpen content = 1))
      ∧ (containsS phFeedTitle content = false →
          phFeedTitle ∈ (validateTemplate content).missing)
      ∧ (containsS phITEMS content = true ∧ hasItemsBlockS content = true →
          templateHardError content ≠ none) := by
  refine ⟨?_, ?_, ?_⟩
  · unfold templateHardError htmlTemplateValidate validateTemplate
    by_cases h0 : content = ""
    · simp [h0]
    · by_cases h1 : jsTrim content = ""
      · simp [h0, h1]
      · by_cases h2 : countS phITEMS content + countS phItemsOpen content > 1
        · simp [h0, h1, h2]
          omega
        · by_cases h3 : countS phITEMS content + countS phItemsOpen content = 1
          · simp [h0, h1, h2, h3]
          · simp [h0, h1, h2, h3]
  · intro h
    unfold validateTemplate
    simp only [h, Bool.not_false, if_pos]
    split <;> simp
  · rintro ⟨hbare, hblock⟩
    have hb : 1 ≤ countS phITEMS content := by
      apply countL_pos_of_contains
      · decide
      · exact hbare
    have ho : 1 ≤ countS phItemsOpen content := by
      apply countL_pos_of_contains
      · decide
      · unfold hasItemsBlockS at hblock
        unfold containsL
        cases hx : splitFirstL phItemsOpen.data content.data with
        | none =>
          unfold splitFirstS at hblock
          rw [hx] at hblock
          simp at hblock
        | some q => simp
    unfold templateHardError htmlTemplateValidate
    by_cases h0 : content = ""
    · simp [h0]
    · by_cases h1 : jsTrim content = ""
      · simp [h0, h1]
      · have h2 : countS phITEMS content + countS phItemsOpen content > 1 := by omega
        simp [h0, h1, h2]

/-- Witness for C4's amended theorem: the no-title template triggers the
warning branch, and a template holding both the bare and the block entries
form is rejected with a hard error. -/
theorem C4_template_validation_amended_witness :
    containsS phFeedTitle "<html>\x7b\x7bITEMS\x7d\x7d</html>" = false
      ∧ phFeedTitle ∈ (validateTemplate "<html>\x7b\x7bITEMS\x7d\x7d</html>").missing
      ∧ templateHardError
          "\x7b\x7bFEED_TITLE\x7d\x7d\x7b\x7bITEMS\x7d\x7d\x7b\x7b#ITEMS\x7d\x7dx\x7b\x7b/ITEMS\x7d\x7d"
          ≠ none :=
  ⟨by decide,
    (C4_template_validation_amended "<html>\x7b\x7bITEMS\x7d\x7d</html>").2.1 (by decide),
    (C4_template_validation_amended
        "\x7b\x7bFEED_TITLE\x7d\x7d\x7b\x7bITEMS\x7d\x7d\x7b\x7b#ITEMS\x7d\x7dx\x7b\x7b/ITEMS\x7d\x7d").2.2
      (by constructor <;> decide)⟩

/-- Inserting permutes with cons. -/
theorem insertByTimeDesc_perm (x : RSSItem) (s : List RSSItem) :
    (insertByTimeDesc x s).Perm (x :: s) := by
  induction s with
  | nil => simp [insertByTimeDesc]
  | cons y ys ih =>
    rw [insertByTimeDesc]
    split
    · exact List.Perm.refl _
    · exact (List.Perm.cons y ih).trans (List.Perm.swap x y ys)

/-- The within-bucket sort is a permutation. -/
theorem sortByTimeDesc_perm (l : List RSSItem) : (sortByTimeDesc l).Perm l := by
  induction l with
  | nil => simp [sortByTimeDesc]
  | cons x xs ih =>
    rw [sortByTimeDesc]
    exact (insertByTimeDesc_perm x (sortByTimeDesc xs)).trans (List.Perm.cons x ih)

/-- Inserting into a descending-sorted list keeps it sorted. -/
theorem insertByTimeDesc_sorted (x : RSSItem) (s : List RSSItem)
    (hs : s.Pairwise (fun a b => itemTime b ≤ itemTime a)) :
    (insertByTimeDesc x s).Pairwise (fun a b => itemTime b ≤ itemTime a) := by
  induction s with
  | nil => simp [insertByTimeDesc]
  | cons y ys ih =>
    rw [insertByTimeDesc]
    rcases List.pairwise_cons.mp hs with ⟨hy, hys⟩
    split
    · rename_i hle
      refine List.pairwise_cons.mpr ⟨?_, hs⟩
      intro z hz
      rcases List.mem_cons.mp hz with rfl | hz'
      · exact hle
      · exact le_trans (hy z hz') hle
    · rename_i hgt
      have hxy : itemTime x < itemTime y := by omega
      refine List.pairwise_cons.mpr ⟨?_, ih hys⟩
      intro z hz
      have hz' : z ∈ x :: ys := (insertByTimeDesc_perm x ys).mem_iff.mp hz
      rcases List.mem_cons.mp hz' with rfl | hz''
      · omega
      · exact hy z hz''

/-- Inserting an element with a different time does not affect a
time-equality filter. -/
theorem insertByTimeDesc_filter_ne (x : RSSItem) (s : List RSSItem) (t : Int)
    (hx : itemTime x ≠ t) :
    (insertByTimeDesc x s).filter (fun i => decide (itemTime i = t)) =
      s.filter (fun i => decide (itemTime i = t)) := by
  induction s with
  | nil => simp [insertByTimeDesc, hx]
  | cons y ys ih =>
    rw [insertByTimeDesc]
    split
    · simp [List.filter, hx]
    · simp only [List.filter]
      rw [ih]

/-- Inserting an element with the filtered time puts it in front of every
kept element: the characters skipped over all have strictly larger times. -/
theorem insertByTimeDesc_filter_eq (x : RSSItem) (s : List RSSItem) (t : Int)
    (hx : itemTime x = t) :
    (insertByTimeDesc x s).filter (fun i => decide (itemTime i = t)) =
      x :: s.filter (fun i => decide (itemTime i = t)) := by
  induction s with
  | nil => simp [insertByTimeDesc, hx]
  | cons y ys ih =>
    rw [insertByTimeDesc]
    split
    · simp [List.filter, hx]
    · rename_i hgt
      have hy : itemTime y ≠ t := by omega
      simp only [List.filter]
      rw [ih]
      simp [hy]

/-- Stability of the within-bucket sort: for every time value, the sorted
bucket restricted to that time equals the input restricted to that time
(equal-time items keep their relative input order). -/
theorem sortByTimeDesc_stable (l : List RSSItem) (t : Int) :
    (sortByTimeDesc l).filter (fun i => decide (itemTime i = t)) =
      l.filter (fun i => decide (itemTime i = t)) := by
  induction l with
  | nil => simp [sortByTimeDesc]
  | cons x xs ih =>
    rw [sortByTimeDesc]
    by_cases hx : itemTime x = t
    · rw [insertByTimeDesc_filter_eq x _ t hx, ih]
      simp [List.filter, hx]
    · rw [insertByTimeDesc_filter_ne x _ t hx, ih]
      simp [List.filter, hx]

/-- Full sortedness of the within-bucket sort. -/
theorem sortByTimeDesc_sorted (l : List RSSItem) :
    (sortByTimeDesc l).Pairwise (fun a b => itemTime b ≤ itemTime a) := by
  induction l with
  | nil => simp [sortByTimeDesc]
  | cons x xs ih =>
    rw [sortByTimeDesc]
    exact insertByTimeDesc_sorted x _ ih

/-- `insertGrouped` appends to exactly the bucket of the inserted key. -/
theorem bucketOf_insertGrouped (kq kIns : String) (it : RSSItem)
    (acc : List (String × List RSSItem)) :
    bucketOf kq (insertGrouped kIns it acc) =
      if kIns = kq then bucketOf kq acc ++ [it] else bucketOf kq acc := by
  induction acc with
  | nil => by_cases h : kIns = kq <;> simp [insertGrouped, bucketOf, h]
  | cons p rest ih =>
    obtain ⟨k₀, its⟩ := p
    rw [insertGrouped]
    by_cases h1 : k₀ = kIns
    · subst h1
      by_cases h2 : k₀ = kq <;> simp [bucketOf, h2]
    · by_cases h2 : k₀ = kq
      · subst h2
        have hne : kIns ≠ k₀ := fun he => h1 he.symm
        simp [bucketOf, h1, hne, ih]
      · simp [bucketOf, h1, h2, ih]

/-- The grouping fold assembles, bucket by bucket, exactly the input items
carrying that key, in input order. -/
theorem bucketOf_foldl (items : List RSSItem) :
    ∀ (acc : List (String × List RSSItem)) (kq : String),
      bucketOf kq (items.foldl
        (fun acc it =>
          match it.pubDate with
          | none => acc
          | some d => insertGrouped (getYearMonthKey d) it acc) acc) =
        bucketOf kq acc ++ items.filter (fun i => keyOfItem i == some kq) := by
  induction items with
  | nil => intro acc kq; simp
  | cons it rest ih =>
    intro acc kq
    rw [List.foldl_cons]
    cases hpd : it.pubDate with
    | none =>
      simp only [hpd]
      rw [ih]
      have hk : (keyOfItem it == some kq) = false := by simp [keyOfItem, hpd]
      simp [List.filter, hk]
    | some d =>
      simp only [hpd]
      rw [ih, bucketOf_insertGrouped]
      by_cases hk : getYearMonthKey d = kq
      · have hkb : (keyOfItem it == some kq) = true := by simp [keyOfItem, hpd, hk]
        simp [List.filter, hkb, hk, List.append_assoc]
      · have hkb : (keyOfItem it == some kq) = false := by simp [keyOfItem, hpd, hk]
        simp [List.filter, hkb, hk]

/-- Bucket lookup over the whole grouping pass. -/
theorem bucketOf_collectGroups (items : List RSSItem) (kq : String) :
    bucketOf kq (collectGroups items) =
      items.filter (fun i => keyOfItem i == some kq) := by
  unfold collectGroups
  rw [bucketOf_foldl]
  simp [bucketOf]

/-- The keys after an insertion: unchanged when the key is already present,
else the new key is appended. -/
theorem keys_insertGrouped (kIns : String) (it : RSSItem)
    (acc : List (String × List RSSItem)) :
    (insertGrouped kIns it acc).map Prod.fst =
      if kIns ∈ acc.map Prod.fst then acc.map Prod.fst else acc.map Prod.fst ++ [kIns] := by
  induction acc with
  | nil => simp [insertGrouped]
  | cons p rest ih =>
    obtain ⟨k₀, its⟩ := p
    rw [insertGrouped]
    by_cases h1 : k₀ = kIns
    · subst h1
      simp
    · have hne : kIns ≠ k₀ := fun he => h1 he.symm
      by_cases h2 : kIns ∈ rest.map Prod.fst <;>
        simp [h1, h2, hne, ih]

/-- Key distinctness is preserved by an insertion. -/
theorem nodup_keys_insertGrouped (kIns : String) (it : RSSItem)
    (acc : List (String × List RSSItem)) (h : (acc.map Prod.fst).Nodup) :
    ((insertGrouped kIns it acc).map Prod.fst).Nodup := by
  rw [keys_insertGrouped]
  split
  · exact h
  · rename_i hmem
    simpa using List.Nodup.append h (by simp) (by simpa using hmem)

/-- Bucket nonemptiness is preserved by an insertion. -/
theorem nonempty_insertGrouped (kIns : String) (it : RSSItem)
    (acc : List (String × List RSSItem)) (h : ∀ p ∈ acc, p.2 ≠ []) :
    ∀ p ∈ insertGrouped kIns it acc, p.2 ≠ [] := by
  induction acc with
  | nil =>
    intro p hp
    rw [insertGrouped] at hp
    rcases List.mem_singleton.mp hp with rfl
    simp
  | cons q rest ih =>
    obtain ⟨k₀, its⟩ := q
    intro p hp
    rw [insertGrouped] at hp
    split at hp
    · rcases List.mem_cons.mp hp with rfl | hp'
      · simp
      · exact h p (List.mem_cons_of_mem _ hp')
    · rcases List.mem_cons.mp hp with rfl | hp'
      · exact h _ (List.mem_cons_self _ _)
      · exact ih (fun q hq => h q (List.mem_cons_of_mem _ hq)) p hp'

/-- The grouping pass produces distinct keys. -/
theorem nodup_keys_collectGroups (items : List RSSItem) :
    ((collectGroups items).map Prod.fst).Nodup := by
  unfold collectGroups
  suffices h : ∀ acc : List (String × List RSSItem), (acc.map Prod.fst).Nodup →
      ((items.foldl
        (fun acc it =>
          match it.pubDate with
          | none => acc
          | some d => insertGrouped (getYearMonthKey d) it acc) acc).map Prod.fst).Nodup by
    exact h [] (by simp)
  induction items with
  | nil => intro acc hacc; simpa using hacc
  | cons it rest ih =>
    intro acc hacc
    rw [List.foldl_cons]
    cases hpd : it.pubDate with
    | none => simp only [hpd]; exact ih acc hacc
    | some d =>
      simp only [hpd]
      exact ih _ (nodup_keys_insertGrouped _ _ _ hacc)

/-- The grouping pass produces no empty bucket. -/
theorem nonempty_collectGroups (items : List RSSItem) :
    ∀ p ∈ collectGroups items, p.2 ≠ [] := by
  unfold collectGroups
  suffices h : ∀ acc : List (String × List RSSItem), (∀ p ∈ acc, p.2 ≠ []) →
      ∀ p ∈ items.foldl
        (fun acc it =>
          match it.pubDate with
          | none => acc
          | some d => insertGrouped (getYearMonthKey d) it acc) acc, p.2 ≠ [] by
    exact h [] (by simp)
  induction items with
  | nil => intro acc hacc; simpa using hacc
  | cons it rest ih =>
    intro acc hacc
    rw [List.foldl_cons]
    cases hpd : it.pubDate with
    | none => simp only [hpd]; exact ih acc hacc
    | some d =>
      simp only [hpd]
      exact ih _ (nonempty_insertGrouped _ _ _ hacc)

/-- With distinct keys, membership determines the bucket. -/
theorem mem_eq_bucketOf (acc : List (String × List RSSItem))
    (hN : (acc.map Prod.fst).Nodup) (k : String) (b : List RSSItem)
    (h : (k, b) ∈ acc) : bucketOf k acc = b := by
  induction acc with
  | nil => simp at h
  | cons p rest ih =>
    obtain ⟨k₀, its⟩ := p
    rcases List.mem_cons.mp h with he | hm
    · rw [Prod.mk.injEq] at he
      obtain ⟨rfl, rfl⟩ := he
      simp [bucketOf]
    · have hk : k₀ ≠ k := by
        intro he
        subst he
        have : k₀ ∈ rest.map Prod.fst :=
          List.mem_map.mpr ⟨(k₀, b), hm, rfl⟩
        exact (List.nodup_cons.mp (by simpa using hN)).1 this
      rw [bucketOf, if_neg hk]
      exact ih (List.nodup_cons.mp (by simpa using hN)).2 hm

/-- A key occurs among the grouping keys exactly when some bucket is non-empty
under it. -/
theorem key_mem_iff_bucketOf_ne_nil (acc : List (String × List RSSItem))
    (hne : ∀ p ∈ acc, p.2 ≠ []) (k : String) :
    k ∈ acc.map Prod.fst ↔ bucketOf k acc ≠ [] := by
  induction acc with
  | nil => simp [bucketOf]
  | cons p rest ih =>
    obtain ⟨k₀, its⟩ := p
    by_cases h : k₀ = k
    · subst h
      have hits : its ≠ [] := hne _ (List.mem_cons_self _ _)
      simp [bucketOf, hits]
    · simp only [List.map_cons, List.mem_cons, bucketOf, if_neg h]
      rw [← ih (fun q hq => hne q (List.mem_cons_of_mem _ hq))]
      constructor
      · rintro (rfl | hm)
        · exact absurd rfl h
        · exact hm
      · exact Or.inr

/-- The key comparator is total. -/
theorem charsLe_total (a b : List Char) : charsLe a b = true ∨ charsLe b a = true := by
  induction a generalizing b with
  | nil => left; simp [charsLe]
  | cons x xs ih =>
    cases b with
    | nil => right; simp [charsLe]
    | cons y ys =>
      rw [charsLe, charsLe]
      by_cases h1 : x.toNat < y.toNat
      · left; simp [h1]
      · by_cases h2 : y.toNat < x.toNat
        · right; simp [h1, h2]
        · have hx : ¬ y.toNat < x.toNat := h2
          rcases ih ys with h | h <;> simp [h1, h2, hx, h]

/-- The key comparator is transitive. -/
theorem charsLe_trans (a b c : List Char) (hab : charsLe a b = true)
    (hbc : charsLe b c = true) : charsLe a c = true := by
  induction a generalizing b c with
  | nil => simp [charsLe]
  | cons x xs ih =>
    cases b with
    | nil => simp [charsLe] at hab
    | cons y ys =>
      cases c with
      | nil => simp [charsLe] at hbc
      | cons z zs =>
        rw [charsLe] at hab hbc ⊢
        by_cases h1 : x.toNat < y.toNat <;> by_cases h2 : y.toNat < z.toNat <;>
          by_cases h3 : x.toNat < z.toNat <;>
            simp [h1, h2, h3] at hab hbc ⊢ <;> try omega
        have hab' : x.toNat ≤ y.toNat ∧ charsLe xs ys = true := by
          simpa [h1, (by omega : ¬ y.toNat < x.toNat)] using hab
        have hbc' : y.toNat ≤ z.toNat ∧ charsLe ys zs = true := by
          simpa [h2, (by omega : ¬ z.toNat < y.toNat)] using hbc
        refine ⟨?_, ih ys zs hab'.2 hbc'.2⟩
        have := hab'.1
        have := hbc'.1
        omega

/-- `strLe` inherits totality. -/
theorem strLe_total (a b : String) : strLe a b = true ∨ strLe b a = true :=
  charsLe_total a.data b.data

/-- `strLe` inherits transitivity. -/
theorem strLe_trans (a b c : String) (h1 : strLe a b = true) (h2 : strLe b c = true) :
    strLe a c = true := charsLe_trans a.data b.data c.data h1 h2

/-- Key-descending insertion permutes with cons. -/
theorem insertPairDesc_perm (x : String × List RSSItem)
    (s : List (String × List RSSItem)) : (insertPairDesc x s).Perm (x :: s) := by
  induction s with
  | nil => simp [insertPairDesc]
  | cons y ys ih =>
    rw [insertPairDesc]
    split
    · exact List.Perm.refl _
    · exact (List.Perm.cons y ih).trans (List.Perm.swap x y ys)

/-- The key sort is a permutation. -/
theorem sortPairsDesc_perm (l : List (String × List RSSItem)) :
    (sortPairsDesc l).Perm l := by
  induction l with
  | nil => simp [sortPairsDesc]
  | cons x xs ih =>
    rw [sortPairsDesc]
    exact (insertPairDesc_perm x (sortPairsDesc xs)).trans (List.Perm.cons x ih)

/-- Key-descending insertion preserves descending key order. -/
theorem insertPairDesc_sorted (x : String × List RSSItem)
    (s : List (String × List RSSItem))
    (hs : s.Pairwise (fun a b => strLe b.1 a.1 = true)) :
    (insertPairDesc x s).Pairwise (fun a b => strLe b.1 a.1 = true) := by
  induction s with
  | nil => simp [insertPairDesc]
  | cons y ys ih =>
    rw [insertPairDesc]
    rcases List.pairwise_cons.mp hs with ⟨hy, hys⟩
    split
    · rename_i hle
      refine List.pairwise_cons.mpr ⟨?_, hs⟩
      intro z hz
      rcases List.mem_cons.mp hz with rfl | hz'
      · exact hle
      · exact strLe_trans _ _ _ (hy z hz') hle
    · rename_i hgt
      have hxy : strLe x.1 y.1 = true := by
        rcases strLe_total y.1 x.1 with h | h
        · exact absurd h hgt
        · exact h
      refine List.pairwise_cons.mpr ⟨?_, ih hys⟩
      intro z hz
      have hz' : z ∈ x :: ys := (insertPairDesc_perm x ys).mem_iff.mp hz
      rcases List.mem_cons.mp hz' with rfl | hz''
      · exact hxy
      · exact hy z hz''

/-- The key sort is descending. -/
theorem sortPairsDesc_sorted (l : List (String × List RSSItem)) :
    (sortPairsDesc l).Pairwise (fun a b => strLe b.1 a.1 = true) := by
  induction l with
  | nil => simp [sortPairsDesc]
  | cons x xs ih =>
    rw [sortPairsDesc]
    exact insertPairDesc_sorted x _ ih

/-- Membership in the grouping output names a collected bucket, sorted. -/
theorem mem_groupItemsByMonth (items : List RSSItem) (k : String)
    (bucket : List RSSItem) :
    (k, bucket) ∈ groupItemsByMonth items ↔
      ∃ b₀, (k, b₀) ∈ collectGroups items ∧ bucket = sortByTimeDesc b₀ := by
  have hperm : (groupItemsByMonth items).Perm
      ((collectGroups items).map (fun p => (p.1, sortByTimeDesc p.2))) := by
    unfold groupItemsByMonth
    exact sortPairsDesc_perm _
  constructor
  · intro h
    obtain ⟨p, hp, he⟩ := List.mem_map.mp (hperm.mem_iff.mp h)
    obtain ⟨k₀, b₀⟩ := p
    simp only [Prod.mk.injEq] at he
    refine ⟨b₀, ?_, he.2.symm⟩
    rw [← he.1]
    exact hp
  · rintro ⟨b₀, hb, rfl⟩
    exact hperm.mem_iff.mpr (List.mem_map.mpr ⟨(k, b₀), hb, rfl⟩)

/-- C6 (amended): grouping drops exactly the entries without a publication
date (they are what the skipped tally counts), assigns every remaining entry
to the bucket of its `year-month` key — decimal unpadded year, dash,
two-digit zero-padded month — orders every bucket by publication time
descending with ties keeping input order, produces no empty bucket and no
duplicate key, and lists buckets in descending code-point order of their
keys (newest month first whenever all years have equally many digits). -/
theorem C6_groupItemsByMonth_amended (items : List RSSItem) :
    ((groupItemsByMonth items).map Prod.fst).Nodup
    ∧ (groupItemsByMonth items).Pairwise (fun a b => strLe b.1 a.1 = true)
    ∧ (∀ k bucket, (k, bucket) ∈ groupItemsByMonth items →
        bucket.Perm (items.filter (fun i => keyOfItem i == some k))
        ∧ bucket.Pairwise (fun a b => itemTime b ≤ itemTime a)
        ∧ (∀ t : Int, bucket.filter (fun i => decide (itemTime i = t)) =
            (items.filter (fun i => keyOfItem i == some k)).filter
              (fun i => decide (itemTime i = t)))
        ∧ bucket ≠ []
        ∧ ∀ i ∈ bucket, i.pubDate.isSome = true)
    ∧ (∀ k, (∃ bucket, (k, bucket) ∈ groupItemsByMonth items) ↔
        ∃ i ∈ items, keyOfItem i = some k)
    ∧ countSkippedItems items = (items.filter (fun i => i.pubDate.isNone)).length
    ∧ (∀ d : JSDate, d.monthIndex < 12 →
        getYearMonthKey d = toString d.year ++ "-" ++ padMonth (d.monthIndex + 1)
        ∧ (padMonth (d.monthIndex + 1)).data.length = 2) := by
  have hperm : (groupItemsByMonth items).Perm
      ((collectGroups items).map (fun p => (p.1, sortByTimeDesc p.2))) := by
    unfold groupItemsByMonth
    exact sortPairsDesc_perm _
  have hkeys : ((collectGroups items).map (fun p => (p.1, sortByTimeDesc p.2))).map
      Prod.fst = (collectGroups items).map Prod.fst := by
    rw [List.map_map]
    rfl
  refine ⟨?_, ?_, ?_, ?_, ?_, ?_⟩
  · have := (hperm.map Prod.fst).nodup_iff
    rw [hkeys] at this
    exact this.mpr (nodup_keys_collectGroups items)
  · unfold groupItemsByMonth
    exact sortPairsDesc_sorted _
  · intro k bucket h
    obtain ⟨b₀, hb₀, rfl⟩ := (mem_groupItemsByMonth items k bucket).mp h
    have hbO : b₀ = items.filter (fun i => keyOfItem i == some k) := by
      rw [← bucketOf_collectGroups]
      exact (mem_eq_bucketOf _ (nodup_keys_collectGroups items) _ _ hb₀).symm
    refine ⟨?_, sortByTimeDesc_sorted b₀, ?_, ?_, ?_⟩
    · rw [← hbO]
      exact sortByTimeDesc_perm b₀
    · intro t
      rw [← hbO]
      exact sortByTimeDesc_stable b₀ t
    · intro he
      have hb₀ne : b₀ ≠ [] := nonempty_collectGroups items (k, b₀) hb₀
      apply hb₀ne
      have hp := (sortByTimeDesc_perm b₀).symm
      rw [he] at hp
      exact hp.eq_nil
    · intro i hi
      have him : i ∈ b₀ := (sortByTimeDesc_perm b₀).mem_iff.mp hi
      rw [hbO] at him
      have hpred := (List.mem_filter.mp him).2
      have : keyOfItem i = some k := by simpa using hpred
      unfold keyOfItem at this
      cases hpd : i.pubDate with
      | none => rw [hpd] at this; simp at this
      | some d => simp
  · intro k
    constructor
    · rintro ⟨bucket, h⟩
      obtain ⟨b₀, hb₀, _⟩ := (mem_groupItemsByMonth items k bucket).mp h
      have hkm : k ∈ (collectGroups items).map Prod.fst :=
        List.mem_map.mpr ⟨(k, b₀), hb₀, rfl⟩
      have hne := (key_mem_iff_bucketOf_ne_nil _ (nonempty_collectGroups items) k).mp hkm
      rw [bucketOf_collectGroups] at hne
      by_contra hcon
      push_neg at hcon
      apply hne
      apply List.filter_eq_nil_iff.mpr
      intro i hi
      intro hpi
      exact hcon i hi (by simpa using hpi)
    · rintro ⟨i, hi, hki⟩
      have hne : items.filter (fun i => keyOfItem i == some k) ≠ [] := by
        intro he
        have hm : i ∈ items.filter (fun i => keyOfItem i == some k) :=
          List.mem_filter.mpr ⟨hi, by simp [hki]⟩
        rw [he] at hm
        simp at hm
      rw [← bucketOf_collectGroups] at hne
      have hkm : k ∈ (collectGroups items).map Prod.fst :=
        (key_mem_iff_bucketOf_ne_nil _ (nonempty_collectGroups items) k).mpr hne
      obtain ⟨p, hp, hpe⟩ := List.mem_map.mp hkm
      obtain ⟨k₀, b₀⟩ := p
      simp only at hpe
      subst hpe
      exact ⟨sortByTimeDesc b₀, (mem_groupItemsByMonth items _ _).mpr ⟨b₀, hp, rfl⟩⟩
  · rfl
  · intro d hd
    obtain ⟨tm, yr, mi, iso, loc⟩ := d
    simp only at hd
    refine ⟨rfl, ?_⟩
    show (padMonth (mi + 1)).data.length = 2
    interval_cases mi <;> decide

/-- C6 counterexample: a year below 1000 yields the bucket key `999-05`,
which is not of the claimed zero-padded four-digit-year form, and the bucket
iteration then lists the chronologically older month `999-05` before the
newer month `1000-01`, refuting the claimed newest-month-first order. -/
theorem C6_unpadded_year_counterexample :
    (groupItemsByMonth [i999, i1000]).map Prod.fst = ["999-05", "1000-01"]
      ∧ specYYYYMMFormat "999-05" = false
      ∧ keyOfItem i999 = some "999-05"
      ∧ keyOfItem i1000 = some "1000-01" := by
  decide

/-- Witness for C6's amended theorem at a concrete two-item input sharing one
month: the bucket exists, holds both items newest-first, and the month
component is two digits. -/
theorem C6_groupItemsByMonth_amended_witness :
    ("2024-01", [iW2, iW1]) ∈ groupItemsByMonth [iW1, iW2]
      ∧ ([iW2, iW1]).Perm ([iW1, iW2].filter (fun i => keyOfItem i == some "2024-01"))
      ∧ (padMonth (0 + 1)).data.length = 2 :=
  ⟨by decide,
    ((C6_groupItemsByMonth_amended [iW1, iW2]).2.2.1 "2024-01" [iW2, iW1] (by decide)).1,
    ((C6_groupItemsByMonth_amended [iW1, iW2]).2.2.2.2.2 ⟨1, 2024, 0, "", ""⟩ (by decide)).2⟩

/-- A case-insensitive prefix of `a` is one of `a ++ b`. -/
theorem startsWithCIL_append_left (n a b : List Char) (h : startsWithCIL n a = true) :
    startsWithCIL n (a ++ b) = true := by
  induction n generalizing a with
  | nil => simp [startsWithCIL]
  | cons c cs ih =>
    cases a with
    | nil => simp [startsWithCIL] at h
    | cons d ds =>
      simp only [List.cons_append, startsWithCIL, Bool.and_eq_true] at h ⊢
      exact ⟨h.1, ih ds h.2⟩

/-- `splitFirstCIL` finds the match at the first position where the needle
case-insensitively occurs. -/
theorem splitFirstCIL_spec (needle : List Char) (a rest : List Char) (hne : needle ≠ [])
    (ha : ∀ i < a.length, startsWithCIL needle ((a ++ rest).drop i) = false)
    (hm : startsWithCIL needle rest = true) :
    splitFirstCIL needle (a ++ rest) =
      some (a, rest.take needle.length, rest.drop needle.length) := by
  induction a with
  | nil =>
    simp only [List.nil_append]
    cases rest with
    | nil =>
      cases needle with
      | nil => exact absurd rfl hne
      | cons c cs => simp [startsWithCIL] at hm
    | cons c cs =>
      rw [splitFirstCIL, if_pos hm]
  | cons x xs ih =>
    rw [List.cons_append, splitFirstCIL]
    have h0 : startsWithCIL needle (x :: (xs ++ rest)) = false := by
      have := ha 0 (by simp)
      simpa using this
    rw [if_neg (by simp [h0])]
    have ih' := ih (fun i hi => by
      have := ha (i + 1) (by simp; omega)
      simpa using this)
    rw [ih']

/-- `findMainL` scans past a prefix holding no `<main` start. -/
theorem findMainL_skip (pre rest : List Char)
    (hpre : ∀ i < pre.length,
      startsWithCIL "<main".data ((pre ++ rest).drop i) = false) :
    findMainL (pre ++ rest) = (findMainL rest).map (fun r => (pre ++ r.1, r.2)) := by
  induction pre with
  | nil =>
    simp only [List.nil_append]
    cases hr : findMainL rest with
    | none => simp
    | some r => simp
  | cons c cs ih =>
    rw [List.cons_append, findMainL]
    have h0 : startsWithCIL "<main".data (c :: (cs ++ rest)) = false := by
      have := hpre 0 (by simp)
      simpa using this
    have ht : tryMainAt (c :: (cs ++ rest)) = none := by
      unfold tryMainAt
      rw [h0]
      simp
    rw [ht]
    have ih' := ih (fun i hi => by
      have := hpre (i + 1) (by simp; omega)
      simpa using this)
    rw [ih']
    cases findMainL rest with
    | none => simp
    | some r => simp

/-- Evaluation of the `<main>` matcher at its match position. -/
theorem tryMainAt_canonical (gap inner post : List Char)
    (hgap : ∀ c ∈ gap, c ≠ '>')
    (hinner : ∀ i < inner.length, startsWithCIL "</main>".data
      ((inner ++ ("</main>".data ++ post)).drop i) = false) :
    tryMainAt ("<main".data ++ (gap ++ '>' :: (inner ++ ("</main>".data ++ post)))) =
      some ("<main".data ++ gap ++ ['>'], inner, "</main>".data, post) := by
  have hsw : startsWithCIL "<main".data
      ("<main".data ++ (gap ++ '>' :: (inner ++ ("</main>".data ++ post)))) = true :=
    startsWithCIL_append_left _ _ _ (by decide)
  unfold tryMainAt
  rw [hsw]
  simp only [if_true]
  have hdrop5 : ("<main".data ++ (gap ++ '>' :: (inner ++ ("</main>".data ++ post)))).drop 5 =
      gap ++ '>' :: (inner ++ ("</main>".data ++ post)) := by
    have h5 : ("<main".data).length = 5 := rfl
    rw [← h5, List.drop_left]
  rw [hdrop5]
  have htw : (gap ++ '>' :: (inner ++ ("</main>".data ++ post))).takeWhile
      (fun x => x != '>') = gap := by
    apply takeWhile_append_cons
    · intro c hc
      simpa using hgap c hc
    · decide
  rw [htw]
  have hdropg : (gap ++ '>' :: (inner ++ ("</main>".data ++ post))).drop gap.length =
      '>' :: (inner ++ ("</main>".data ++ post)) := List.drop_left _ _
  rw [hdropg]
  have hsplit : splitFirstCIL "</main>".data (inner ++ ("</main>".data ++ post)) =
      some (inner, ("</main>".data ++ post).take ("</main>".data).length,
        ("</main>".data ++ post).drop ("</main>".data).length) := by
    apply splitFirstCIL_spec
    · decide
    · exact hinner
    · exact startsWithCIL_append_left _ _ _ (by decide)
  rw [List.take_left, List.drop_left] at hsplit
  have htake : ("<main".data ++ (gap ++ '>' :: (inner ++ ("</main>".data ++ post)))).take
      (5 + gap.length + 1) = "<main".data ++ gap ++ ['>'] := by
    have hre : 5 + gap.length + 1 = ("<main".data).length + (gap.length + 1) := by
      simp
      omega
    rw [hre, List.take_append]
    have h2 : (gap ++ '>' :: (inner ++ ("</main>".data ++ post))).take (gap.length + 1) =
        gap ++ ['>'] := by
      rw [show gap.length + 1 = gap.length + 1 from rfl, List.take_append]
      simp [List.take]
    rw [h2, List.append_assoc]
  simp only [hsplit, htake]

/-- Full characterization of the first `<main>` region: with no earlier
`<main` start, a `>`-free open tag, and no earlier `</main>` in the body,
the match splits the page at exactly the written boundaries. -/
theorem findMainL_spec (pre gap inner post : List Char)
    (hpre : ∀ i < pre.length, startsWithCIL "<main".data
      ((pre ++ ("<main".data ++ (gap ++ '>' :: (inner ++ ("</main>".data ++ post))))).drop i)
        = false)
    (hgap : ∀ c ∈ gap, c ≠ '>')
    (hinner : ∀ i < inner.length, startsWithCIL "</main>".data
      ((inner ++ ("</main>".data ++ post)).drop i) = false) :
    findMainL (pre ++ ("<main".data ++ (gap ++ '>' :: (inner ++ ("</main>".data ++ post))))) =
      some (pre, "<main".data ++ gap ++ ['>'], inner, "</main>".data, post) := by
  rw [findMainL_skip pre _ hpre]
  have hcanon := tryMainAt_canonical gap inner post hgap hinner
  obtain ⟨c, rest, he⟩ : ∃ c rest,
      "<main".data ++ (gap ++ '>' :: (inner ++ ("</main>".data ++ post))) = c :: rest :=
    ⟨'<', _, rfl⟩
  rw [he]
  rw [he] at hcanon
  rw [findMainL, hcanon]
  simp

/-- Evaluation of the name-first meta-date matcher at its match position. -/
theorem matchMeta1At_canonical (val rest : List Char)
    (hval : ∀ c ∈ val, isQuote c = false) :
    matchMeta1At ("<meta name=\"date\" content=\"".data ++ (val ++ '"' :: rest)) =
      some ("name=\"date\" content=\"".data, rest) := by
  have h1 : (val ++ '"' :: rest).takeWhile (fun c => !(isQuote c)) = val :=
    takeWhile_append_cons _ val '"' rest (fun c hc => by simp [hval c hc]) (by decide)
  have h2 : (val ++ '"' :: rest).drop val.length = '"' :: rest := List.drop_left _ _
  have hstep : matchMeta1At ("<meta name=\"date\" content=\"".data ++ (val ++ '"' :: rest)) =
      (match (val ++ '"' :: rest).drop
          (((val ++ '"' :: rest).takeWhile (fun c => !(isQuote c))).length) with
        | q4 :: post =>
          if isQuote q4 then some ("name=\"date\" content=\"".data, post) else none
        | [] => none) := rfl
  rw [hstep, h1, h2]
  simp [isQuote]

/-- `findMeta1` scans past a prefix with no meta-date match. -/
theorem findMeta1_skip (pre rest : List Char)
    (hpre : ∀ i < pre.length, matchMeta1At ((pre ++ rest).drop i) = none) :
    findMeta1 (pre ++ rest) = (findMeta1 rest).map (fun r => (pre ++ r.1, r.2)) := by
  induction pre with
  | nil =>
    simp only [List.nil_append]
    cases hr : findMeta1 rest with
    | none => simp
    | some r => simp
  | cons c cs ih =>
    rw [List.cons_append, findMeta1]
    have h0 : matchMeta1At (c :: (cs ++ rest)) = none := by
      have := hpre 0 (by simp)
      simpa using this
    rw [h0]
    have ih' := ih (fun i hi => by
      have := hpre (i + 1) (by simp; omega)
      simpa using this)
    rw [ih']
    cases findMeta1 rest with
    | none => simp
    | some r => simp

/-- Full characterization of the first meta-date match. -/
theorem findMeta1_spec (pre val rest : List Char)
    (hpre : ∀ i < pre.length, matchMeta1At
      ((pre ++ ("<meta name=\"date\" content=\"".data ++ (val ++ '"' :: rest))).drop i) = none)
    (hval : ∀ c ∈ val, isQuote c = false) :
    findMeta1 (pre ++ ("<meta name=\"date\" content=\"".data ++ (val ++ '"' :: rest))) =
      some (pre, "name=\"date\" content=\"".data, rest) := by
  rw [findMeta1_skip pre _ hpre]
  have hcanon := matchMeta1At_canonical val rest hval
  obtain ⟨c, tl, he⟩ : ∃ c tl,
      "<meta name=\"date\" content=\"".data ++ (val ++ '"' :: rest) = c :: tl :=
    ⟨'<', _, rfl⟩
  rw [he] at hcanon ⊢
  rw [findMeta1, hcanon]
  simp

/-- `updateMetaDate` rewrites the canonical meta-date tag's value to the new
date's ISO string and changes nothing else. -/
theorem updateMetaDate_spec (h1 val rest : String) (now : JSDate)
    (hpre : ∀ i < h1.data.length, matchMeta1At
      ((h1.data ++ ("<meta name=\"date\" content=\"".data ++
        (val.data ++ '"' :: rest.data))).drop i) = none)
    (hval : ∀ c ∈ val.data, isQuote c = false) :
    updateMetaDate (h1 ++ "<meta name=\"date\" content=\"" ++ val ++ "\"" ++ rest) now =
      h1 ++ "<meta name=\"date\" content=\"" ++ now.iso ++ "\"" ++ rest := by
  have hdata : (h1 ++ "<meta name=\"date\" content=\"" ++ val ++ "\"" ++ rest).data =
      h1.data ++ ("<meta name=\"date\" content=\"".data ++ (val.data ++ '"' :: rest.data)) := by
    simp [String.data_append, List.append_assoc]
  unfold updateMetaDate
  rw [hdata, findMeta1_spec h1.data val.data rest.data hpre hval]
  show String.mk h1.data ++ "<meta " ++ String.mk "name=\"date\" content=\"".data ++
      now.iso ++ "\"" ++ String.mk rest.data = _
  apply String.ext
  simp [String.data_append]

/-- A character other than the dollar passes through the substitution
scanner unchanged. -/
theorem getSubstitution_cons_clean (m b a g1 g2 : List Char) (c : Char) (l : List Char)
    (hc : c ≠ '$') :
    getSubstitution m b a g1 g2 (c :: l) = c :: getSubstitution m b a g1 g2 l := by
  rw [getSubstitution.eq_def]
  simp only
  rw [if_neg hc]

/-- A dollar-free prefix of the replacement string is copied literally. -/
theorem getSubstitution_append_clean (m b a g1 g2 : List Char) (pre rest : List Char)
    (h : '$' ∉ pre) :
    getSubstitution m b a g1 g2 (pre ++ rest) = pre ++ getSubstitution m b a g1 g2 rest := by
  induction pre with
  | nil => simp
  | cons c pre ih =>
    have hc : c ≠ '$' := fun he => h (he ▸ List.mem_cons_self c pre)
    rw [List.cons_append, getSubstitution_cons_clean m b a g1 g2 c _ hc,
      ih (fun hm => h (List.mem_cons_of_mem _ hm)), List.cons_append]

/-- A first-group reference not followed by a digit expands to the first
capture. -/
theorem getSubstitution_dollar1 (m b a g1 g2 : List Char) (c2 : Char) (r : List Char)
    (h : c2.isDigit = false) :
    getSubstitution m b a g1 g2 ('$' :: '1' :: c2 :: r) =
      g1 ++ getSubstitution m b a g1 g2 (c2 :: r) := by
  simp [getSubstitution, h]

/-- The closing part of the splice template expands to the second capture. -/
theorem getSubstitution_tail2 (m b a g1 g2 : List Char) :
    getSubstitution m b a g1 g2 "\n    $2".data = "\n    ".data ++ g2 := by
  rw [show "\n    $2".data = "\n    ".data ++ [Char.ofNat 36, Char.ofNat 50] from rfl]
  rw [getSubstitution_append_clean m b a g1 g2 _ _ (by decide)]
  rfl

/-- The whole splice template expands cleanly when the interpolated entries
HTML contains no dollar character. -/
theorem getSubstitution_template (m b a g1 g2 mid : List Char) (h : '$' ∉ mid) :
    getSubstitution m b a g1 g2 ("$1\n    ".data ++ (mid ++ "\n    $2".data)) =
      g1 ++ ("\n    ".data ++ (mid ++ ("\n    ".data ++ g2))) := by
  rw [show "$1\n    ".data ++ (mid ++ "\n    $2".data) =
      '$' :: '1' :: '\n' :: ("    ".data ++ (mid ++ "\n    $2".data)) from rfl]
  rw [getSubstitution_dollar1 m b a g1 g2 '\n' _ (by decide)]
  rw [show '\n' :: ("    ".data ++ (mid ++ "\n    $2".data)) =
      "\n    ".data ++ (mid ++ "\n    $2".data) from rfl]
  rw [getSubstitution_append_clean m b a g1 g2 _ _ (by decide)]
  rw [getSubstitution_append_clean m b a g1 g2 _ _ h]
  rw [getSubstitution_tail2]

/-- C3: counterexample.  JS `replace` expands dollar patterns inside the
interpolated entries HTML: merging a new page whose entries contain `$&`
splices the whole matched `<main>` region into the output instead of that
two-character text, so the merged page is not the claimed literal two-block
concatenation inside an untouched shell. -/
theorem C3_dollar_expansion_counterexample :
    mergeHtmlContent c3xExisting c3xNew c3xNow =
      "<main>\n    <main>old</main>\n\nold\n    </main>" ∧
    mergeHtmlContent c3xExisting c3xNew c3xNow ≠
      "<main>\n    $&\n\nold\n    </main>" := by
  exact ⟨rfl, by decide⟩

/-- C3 (amended): when the trimmed entries HTML of the new and the existing
page contain no dollar character (so the replacement-string expansion is
literal), merging an update splices the new entries' HTML, as one block,
before the previously existing entries' HTML inside the `<main>` region
(two concatenated blocks, not a re-sorted whole), rewrites the meta
freshness marker to the current time, leaves the rest of the page shell
untouched — and the new block is itself newest-first, because filtering a
descending-sorted bucket preserves its order. -/
theorem C3_mergeHtmlContent_amended
    (h1 val h2 gap inner post npre ngap ninner npost : String) (now : JSDate)
    (hgap : '>' ∉ gap.data) (hngap : '>' ∉ ngap.data)
    (hdolN : '$' ∉ (jsTrim ninner).data) (hdolE : '$' ∉ (jsTrim inner).data)
    (hval : ∀ c ∈ val.data, isQuote c = false)
    (hpreE : ∀ i < (h1 ++ "<meta name=\"date\" content=\"" ++ val ++ "\"" ++ h2).data.length,
      startsWithCIL "<main".data
        (((h1 ++ "<meta name=\"date\" content=\"" ++ val ++ "\"" ++ h2) ++ "<main" ++ gap ++
          ">" ++ inner ++ "</main>" ++ post).data.drop i) = false)
    (hinnerE : ∀ i < inner.data.length, startsWithCIL "</main>".data
      ((inner ++ "</main>" ++ post).data.drop i) = false)
    (hpreN : ∀ i < npre.data.length, startsWithCIL "<main".data
      ((npre ++ "<main" ++ ngap ++ ">" ++ ninner ++ "</main>" ++ npost).data.drop i) = false)
    (hinnerN : ∀ i < ninner.data.length, startsWithCIL "</main>".data
      ((ninner ++ "</main>" ++ npost).data.drop i) = false)
    (hmeta : ∀ i < h1.data.length, matchMeta1At
      ((h1.data ++ ("<meta name=\"date\" content=\"".data ++ (val.data ++ '"' ::
        (h2 ++ "<main" ++ gap ++ ">" ++ "\n    " ++ jsTrim ninner ++ "\n\n" ++ jsTrim inner ++
          "\n    " ++ "</main>" ++ post).data))).drop i) = none) :
    mergeHtmlContent
        ((h1 ++ "<meta name=\"date\" content=\"" ++ val ++ "\"" ++ h2) ++ "<main" ++ gap ++
          ">" ++ inner ++ "</main>" ++ post)
        (npre ++ "<main" ++ ngap ++ ">" ++ ninner ++ "</main>" ++ npost) now =
      h1 ++ "<meta name=\"date\" content=\"" ++ now.iso ++ "\"" ++
        (h2 ++ "<main" ++ gap ++ ">" ++ "\n    " ++ jsTrim ninner ++ "\n\n" ++ jsTrim inner ++
          "\n    " ++ "</main>" ++ post)
    ∧ ∀ (litems : List RSSItem) (d : Option JSDate) (links : List String),
        litems.Pairwise (fun a b => itemTime b ≤ itemTime a) →
        (filterNewItems litems d links).Pairwise (fun a b => itemTime b ≤ itemTime a) := by
  constructor
  · have hgapE : ∀ c ∈ gap.data, c ≠ '>' := fun c hc he => hgap (he ▸ hc)
    have hgapN : ∀ c ∈ ngap.data, c ≠ '>' := fun c hc he => hngap (he ▸ hc)
    have hdataE : ((h1 ++ "<meta name=\"date\" content=\"" ++ val ++ "\"" ++ h2) ++ "<main" ++
        gap ++ ">" ++ inner ++ "</main>" ++ post).data =
        (h1 ++ "<meta name=\"date\" content=\"" ++ val ++ "\"" ++ h2).data ++
          ("<main".data ++ (gap.data ++ '>' ::
            (inner.data ++ ("</main>".data ++ post.data)))) := by
      simp [String.data_append, List.append_assoc]
    have hdataN : (npre ++ "<main" ++ ngap ++ ">" ++ ninner ++ "</main>" ++ npost).data =
        npre.data ++ ("<main".data ++ (ngap.data ++ '>' ::
          (ninner.data ++ ("</main>".data ++ npost.data)))) := by
      simp [String.data_append, List.append_assoc]
    have hdataIE : (inner ++ "</main>" ++ post).data =
        inner.data ++ ("</main>".data ++ post.data) := by
      simp [String.data_append, List.append_assoc]
    have hdataIN : (ninner ++ "</main>" ++ npost).data =
        ninner.data ++ ("</main>".data ++ npost.data) := by
      simp [String.data_append, List.append_assoc]
    have hfindE : findMainL ((h1 ++ "<meta name=\"date\" content=\"" ++ val ++ "\"" ++ h2) ++
        "<main" ++ gap ++ ">" ++ inner ++ "</main>" ++ post).data =
        some ((h1 ++ "<meta name=\"date\" content=\"" ++ val ++ "\"" ++ h2).data,
          "<main".data ++ gap.data ++ ['>'], inner.data, "</main>".data, post.data) := by
      rw [hdataE]
      apply findMainL_spec
      · intro i hi
        have := hpreE i hi
        rw [hdataE] at this
        exact this
      · exact hgapE
      · intro i hi
        have := hinnerE i hi
        rw [hdataIE] at this
        exact this
    have hfindN : findMainL (npre ++ "<main" ++ ngap ++ ">" ++ ninner ++ "</main>" ++
        npost).data =
        some (npre.data, "<main".data ++ ngap.data ++ ['>'], ninner.data, "</main>".data,
          npost.data) := by
      rw [hdataN]
      apply findMainL_spec
      · intro i hi
        have := hpreN i hi
        rw [hdataN] at this
        exact this
      · exact hgapN
      · intro i hi
        have := hinnerN i hi
        rw [hdataIN] at this
        exact this
    have hextN : extractMainInner (npre ++ "<main" ++ ngap ++ ">" ++ ninner ++ "</main>" ++
        npost) = jsTrim ninner := by
      unfold extractMainInner
      rw [hfindN]
    have hextE : extractMainInner ((h1 ++ "<meta name=\"date\" content=\"" ++ val ++ "\"" ++
        h2) ++ "<main" ++ gap ++ ">" ++ inner ++ "</main>" ++ post) = jsTrim inner := by
      unfold extractMainInner
      rw [hfindE]
    have hmid : '$' ∉ (jsTrim ninner ++ "\n\n" ++ jsTrim inner).data := by
      intro hm
      have hsplit : (jsTrim ninner ++ "\n\n" ++ jsTrim inner).data =
          (jsTrim ninner).data ++ ("\n\n".data ++ (jsTrim inner).data) := by
        simp [String.data_append, List.append_assoc]
      rw [hsplit] at hm
      rcases List.mem_append.mp hm with hd | hd
      · exact hdolN hd
      · rcases List.mem_append.mp hd with hd2 | hd2
        · exact absurd hd2 (by decide)
        · exact hdolE hd2
    unfold mergeHtmlContent
    rw [hextN, hextE, hfindE]
    show updateMetaDate
        (String.mk ((h1 ++ "<meta name=\"date\" content=\"" ++ val ++ "\"" ++ h2).data ++
          getSubstitution
            (("<main".data ++ gap.data ++ ['>']) ++ inner.data ++ "</main>".data)
            (h1 ++ "<meta name=\"date\" content=\"" ++ val ++ "\"" ++ h2).data post.data
            ("<main".data ++ gap.data ++ ['>']) "</main>".data
            ("$1\n    ".data ++ ((jsTrim ninner ++ "\n\n" ++ jsTrim inner).data ++
              "\n    $2".data)) ++ post.data)) now =
      h1 ++ "<meta name=\"date\" content=\"" ++ now.iso ++ "\"" ++
        (h2 ++ "<main" ++ gap ++ ">" ++ "\n    " ++ jsTrim ninner ++ "\n\n" ++
          jsTrim inner ++ "\n    " ++ "</main>" ++ post)
    rw [getSubstitution_template _ _ _ _ _ _ hmid]
    have hR : String.mk ((h1 ++ "<meta name=\"date\" content=\"" ++ val ++ "\"" ++ h2).data ++
        (("<main".data ++ gap.data ++ ['>']) ++ ("\n    ".data ++
          ((jsTrim ninner ++ "\n\n" ++ jsTrim inner).data ++ ("\n    ".data ++
            "</main>".data)))) ++ post.data) =
        h1 ++ "<meta name=\"date\" content=\"" ++ val ++ "\"" ++
          (h2 ++ "<main" ++ gap ++ ">" ++ "\n    " ++ jsTrim ninner ++ "\n\n" ++
            jsTrim inner ++ "\n    " ++ "</main>" ++ post) := by
      apply String.ext
      simp [String.data_append, List.append_assoc]
    rw [hR]
    exact updateMetaDate_spec h1 val _ now hmeta hval
  · intro litems d links hsorted
    unfold filterNewItems
    exact List.Pairwise.sublist (List.filter_sublist litems) hsorted

/-- Witness for the amended C3 at a concrete page: existing entries `B`, `A`
(newest first), new block `D`, `C` (all dollar-free); the merged page is
exactly `[D, C, B, A]` with the meta date rewritten, and filtering keeps a
sorted bucket sorted. -/
theorem C3_mergeHtmlContent_amended_witness :
    mergeHtmlContent
        (("<html><head>" ++ "<meta name=\"date\" content=\"" ++ "OLD" ++ "\"" ++
          "></head><body>") ++ "<main" ++ "" ++ ">" ++ "B\n\nA" ++ "</main>" ++
          "</body></html>")
        ("<x>" ++ "<main" ++ "" ++ ">" ++ "D\n\nC" ++ "</main>" ++ "</x>")
        ⟨0, 2025, 0, "NEW", ""⟩ =
      "<html><head><meta name=\"date\" content=\"NEW\"></head><body><main>\n    D\n\nC\n\nB\n\nA\n    </main></body></html>"
    ∧ filterNewItems [iW2, iW1] none [] = [iW2, iW1]
    ∧ (filterNewItems [iW2, iW1] none []).Pairwise
        (fun a b => itemTime b ≤ itemTime a) := by
  have h := C3_mergeHtmlContent_amended "<html><head>" "OLD" "></head><body>" "" "B\n\nA"
      "</body></html>" "<x>" "" "D\n\nC" "</x>" ⟨0, 2025, 0, "NEW", ""⟩
      (by decide) (by decide) (by decide) (by decide) (by decide) (by decide) (by decide)
      (by decide) (by decide) (by decide)
  refine ⟨?_, by decide, h.2 [iW2, iW1] none [] (by decide)⟩
  rw [h.1]
  decide

/-- Deleting some other path keeps an absent path absent. -/
theorem FS.lookup_erase_none (fs : FS) (p q : String) (h : fs.lookup p = none) :
    (fs.erase q).lookup p = none := by
  unfold FS.lookup FS.erase at *
  cases hf : (fs.files.filter (fun e => !(e.1 == q))).find? (fun e => e.1 == p) with
  | none => rfl
  | some e =>
    have he := List.find?_some hf
    have hm := List.mem_filter.mp (List.mem_of_find?_eq_some hf)
    cases hg : fs.files.find? (fun e => e.1 == p) with
    | none =>
      have := List.find?_eq_none.mp hg e hm.1
      rw [he] at this
      simp at this
    | some e' => rw [hg] at h; simp at h

/-- Deleting a path removes it. -/
theorem FS.lookup_erase_self (fs : FS) (p : String) : (fs.erase p).lookup p = none := by
  unfold FS.lookup FS.erase
  cases hf : (fs.files.filter (fun e => !(e.1 == p))).find? (fun e => e.1 == p) with
  | none => rfl
  | some e =>
    have he := List.find?_some hf
    have hm := List.mem_filter.mp (List.mem_of_find?_eq_some hf)
    rw [he] at hm
    simp at hm

/-- Cleanup keeps an absent path absent. -/
theorem cleanupFiles_lookup_none (paths : List String) (fs : FS) (p : String)
    (h : fs.lookup p = none) : (cleanupFiles fs paths).lookup p = none := by
  induction paths generalizing fs with
  | nil => simpa [cleanupFiles]
  | cons q rest ih =>
    unfold cleanupFiles at *
    rw [List.foldl_cons]
    exact ih _ (FS.lookup_erase_none fs p q h)

/-- Cleanup deletes every listed path. -/
theorem cleanupFiles_lookup_mem (paths : List String) (fs : FS) (p : String)
    (h : p ∈ paths) : (cleanupFiles fs paths).lookup p = none := by
  induction paths generalizing fs with
  | nil => simp at h
  | cons q rest ih =>
    unfold cleanupFiles at *
    rw [List.foldl_cons]
    rcases List.mem_cons.mp h with rfl | hm
    · exact cleanupFiles_lookup_none rest _ p (FS.lookup_erase_self fs p)
    · exact ih _ hm

/-- Loop invariant for `writeFiles`: full success writes everything in order;
a failure rolls back both the running batch accumulator and the files
written in this call. -/
theorem writeFilesGo_spec (fail : String → Bool) (outputDir : String)
    (outputs : List OutputFile) :
    ∀ (fs : FS) (written : List String),
      ((∀ f ∈ outputs, fail (resolvePath outputDir f.filename) = false) →
        writeFilesGo fail outputDir fs written outputs =
          (outputs.foldl
            (fun a f => a.insert (resolvePath outputDir f.filename) f.content) fs,
           Except.ok (written ++ outputs.map (fun f => resolvePath outputDir f.filename))))
      ∧ (∀ good bad rest, outputs = good ++ bad :: rest →
          (∀ f ∈ good, fail (resolvePath outputDir f.filename) = false) →
          fail (resolvePath outputDir bad.filename) = true →
          (writeFilesGo fail outputDir fs written outputs).2 =
              Except.error "FILESYSTEM write failed"
            ∧ ∀ p ∈ written ++ good.map (fun f => resolvePath outputDir f.filename),
                (writeFilesGo fail outputDir fs written outputs).1.lookup p = none) := by
  induction outputs with
  | nil =>
    intro fs written
    constructor
    · intro _
      simp [writeFilesGo]
    · intro good bad rest he
      exact absurd he (by simp)
  | cons f0 rest0 ih =>
    intro fs written
    constructor
    · intro hok
      have h0 : fail (resolvePath outputDir f0.filename) = false :=
        hok f0 (by simp)
      rw [writeFilesGo]
      simp only [h0, Bool.false_eq_true, if_false]
      rw [(ih _ _).1 (fun f hf => hok f (by simp [hf]))]
      simp [List.append_assoc]
    · intro good bad rest he hgood hbad
      cases good with
      | nil =>
        simp only [List.nil_append, List.cons.injEq] at he
        have hbad0 : fail (resolvePath outputDir f0.filename) = true := by
          rw [he.1]; exact hbad
        have hgo : writeFilesGo fail outputDir fs written (f0 :: rest0) =
            (cleanupFiles fs written, Except.error "FILESYSTEM write failed") := by
          rw [writeFilesGo]
          simp [hbad0]
        rw [hgo]
        refine ⟨rfl, ?_⟩
        intro p hp
        simp only [List.map_nil, List.append_nil] at hp
        exact cleanupFiles_lookup_mem written fs p hp
      | cons g0 good' =>
        simp only [List.cons_append, List.cons.injEq] at he
        obtain ⟨he0, he'⟩ := he
        subst he0
        have h0 : fail (resolvePath outputDir f0.filename) = false :=
          hgood f0 (by simp)
        rw [writeFilesGo]
        simp only [h0, Bool.false_eq_true, if_false]
        have hrec := ((ih (fs.insert (resolvePath outputDir f0.filename) f0.content)
          (written ++ [resolvePath outputDir f0.filename])).2 good' bad rest he'
          (fun f hf => hgood f (by simp [hf])) hbad)
        refine ⟨hrec.1, ?_⟩
        intro p hp
        apply hrec.2
        simp only [List.mem_append, List.map_cons, List.mem_cons, List.mem_singleton] at hp ⊢
        tauto

/-- C9: writing a batch either fully succeeds — every file written, its
resolved path returned, in input order — or, as soon as one write fails,
every file already written in that batch is deleted before the filesystem
error is propagated, so no partially written batch remains on disk. -/
theorem C9_writeFiles_atomic_or_rollback (fail : String → Bool) (outputDir : String)
    (fs : FS) (outputs : List OutputFile) :
    ((∀ f ∈ outputs, fail (resolvePath outputDir f.filename) = false) →
      writeFiles fail outputDir fs outputs =
        (outputs.foldl (fun a f => a.insert (resolvePath outputDir f.filename) f.content) fs,
         Except.ok (outputs.map (fun f => resolvePath outputDir f.filename))))
    ∧ (∀ good bad rest, outputs = good ++ bad :: rest →
        (∀ f ∈ good, fail (resolvePath outputDir f.filename) = false) →
        fail (resolvePath outputDir bad.filename) = true →
        (writeFiles fail outputDir fs outputs).2 = Except.error "FILESYSTEM write failed"
        ∧ ∀ f ∈ good, (writeFiles fail outputDir fs outputs).1.lookup
            (resolvePath outputDir f.filename) = none) := by
  constructor
  · intro hok
    unfold writeFiles
    rw [(writeFilesGo_spec fail outputDir outputs fs []).1 hok]
    simp
  · intro good bad rest he hgood hbad
    have h := (writeFilesGo_spec fail outputDir outputs fs []).2 good bad rest he hgood hbad
    refine ⟨h.1, ?_⟩
    intro f hf
    exact h.2 _ (by simp [List.mem_map]; exact ⟨f, hf, rfl⟩)

/-- Witness for C9: a two-file batch fully succeeds when nothing fails, and
rolls back the first file when the second write fails. -/
theorem C9_writeFiles_atomic_or_rollback_witness :
    (writeFiles (fun _ => false) "out" ⟨[]⟩
        [⟨"a.html", "A"⟩, ⟨"b.html", "B"⟩]).2 = Except.ok ["out/a.html", "out/b.html"]
    ∧ (writeFiles (fun p => p == "out/b.html") "out" ⟨[]⟩
        [⟨"a.html", "A"⟩, ⟨"b.html", "B"⟩]).2 = Except.error "FILESYSTEM write failed"
    ∧ (writeFiles (fun p => p == "out/b.html") "out" ⟨[]⟩
        [⟨"a.html", "A"⟩, ⟨"b.html", "B"⟩]).1.lookup "out/a.html" = none := by
  have h1 := (C9_writeFiles_atomic_or_rollback (fun _ => false) "out" ⟨[]⟩
    [⟨"a.html", "A"⟩, ⟨"b.html", "B"⟩]).1 (by intro f _; rfl)
  have h2 := (C9_writeFiles_atomic_or_rollback (fun p => p == "out/b.html") "out" ⟨[]⟩
    [⟨"a.html", "A"⟩, ⟨"b.html", "B"⟩]).2 [⟨"a.html", "A"⟩] ⟨"b.html", "B"⟩ [] rfl
    (by decide) (by decide)
  refine ⟨by rw [h1]; rfl, h2.1, ?_⟩
  have := h2.2 ⟨"a.html", "A"⟩ (by simp)
  simpa using this

/-- C10: `generateHTML` is not a deterministic function of its arguments
across calls on one engine: rendering a block-form template permanently
overwrites the stored per-item template, and a later call with a bare-form
template — identical arguments on a fresh engine versus on the used engine —
produces different output. -/
theorem C10_generateHTML_stateful :
    ((generateHTML initTemplateEngine c10Feed c10Block c10Opts c10Now).2).itemTemplate = "X"
      ∧ initTemplateEngine.itemTemplate ≠ "X"
      ∧ (generateHTML initTemplateEngine c10Feed c10Bare c10Opts c10Now).1 ≠
        (generateHTML (generateHTML initTemplateEngine c10Feed c10Block c10Opts c10Now).2
          c10Feed c10Bare c10Opts c10Now).1 := by
  decide

/-- A bucket whose links are all known filters to nothing. -/
theorem filterNewItems_eq_nil (its : List RSSItem) (d : Option JSDate)
    (links : List String) (h : ∀ i ∈ its, links.contains i.link = true) :
    filterNewItems its d links = [] := by
  unfold filterNewItems
  apply List.filter_eq_nil_iff.mpr
  intro i hi
  have hc : i.link ∈ links := by simpa using h i hi
  cases hpd : i.pubDate <;> simp [hpd, hc]

/-- C2: a second run over a filesystem in which every bucket's page already
exists and already knows all of the bucket's links performs zero file
writes — every bucket's filter is empty, every bucket is skipped, the batch
and patch phases never run, and the filesystem (hence every previously
written file's content) is unchanged. -/
theorem C2_second_run_no_writes (env : ConvertEnv) (outputDir : String) (fs : FS)
    (items : List RSSItem)
    (h : ∀ p ∈ groupItemsByMonth items, ∃ html,
      fs.lookup (generateFilePath p.1 outputDir) = some html ∧
        ∀ i ∈ p.2, (env.extractLinks html).contains i.link = true) :
    convert env outputDir fs items = ⟨fs, [], [], false⟩
    ∧ ∀ p ∈ groupItemsByMonth items, ∀ html,
        fs.lookup (generateFilePath p.1 outputDir) = some html →
        filterNewItems p.2 (env.extractDate html) (env.extractLinks html) = [] := by
  have hnone : ∀ p ∈ groupItemsByMonth items,
      processBucket env outputDir ((groupItemsByMonth items).map Prod.fst) fs p.1 p.2 =
        none := by
    intro p hp
    obtain ⟨html, hlook, hlinks⟩ := h p hp
    simp only [processBucket]
    rw [hlook]
    have hnil := filterNewItems_eq_nil p.2 (env.extractDate html) (env.extractLinks html)
      hlinks
    simp [hnil]
  constructor
  · have hloop : ∀ gs, (∀ p ∈ gs, processBucket env outputDir
        ((groupItemsByMonth items).map Prod.fst) fs p.1 p.2 = none) →
        convertLoop env outputDir ((groupItemsByMonth items).map Prod.fst) fs gs =
          ([], []) := by
      intro gs
      induction gs with
      | nil => intro _; rfl
      | cons q rest ih =>
        intro hq
        obtain ⟨ym, its⟩ := q
        rw [convertLoop]
        rw [ih (fun p hp => hq p (by simp [hp]))]
        have := hq (ym, its) (by simp)
        simp only at this
        rw [this]
    simp only [convert]
    rw [hloop (groupItemsByMonth items) hnone]
    simp
  · intro p hp html hlook
    obtain ⟨html₀, hlook₀, hlinks₀⟩ := h p hp
    rw [hlook] at hlook₀
    obtain rfl : html = html₀ := by
      exact Option.some.inj hlook₀
    exact filterNewItems_eq_nil _ _ _ hlinks₀

/-- Characters produced by the decimal digit printer. -/
theorem mem_toDigitsCore_ten : ∀ (f n : Nat) (l : List Char) (c : Char),
    c ∈ Nat.toDigitsCore 10 f n l → c ∈ l ∨ ∃ m, m < 10 ∧ c = Nat.digitChar m := by
  intro f
  induction f with
  | zero =>
    intro n l c h
    left
    simpa [Nat.toDigitsCore] using h
  | succ f ih =>
    intro n l c h
    rw [Nat.toDigitsCore] at h
    by_cases hd : n / 10 = 0
    · rw [if_pos hd] at h
      rcases List.mem_cons.mp h with rfl | hl
      · exact Or.inr ⟨n % 10, Nat.mod_lt _ (by norm_num), rfl⟩
      · exact Or.inl hl
    · rw [if_neg hd] at h
      rcases ih (n / 10) _ c h with hl | hm
      · rcases List.mem_cons.mp hl with rfl | hl'
        · exact Or.inr ⟨n % 10, Nat.mod_lt _ (by norm_num), rfl⟩
        · exact Or.inl hl'
      · exact Or.inr hm

/-- Every character of a natural number's decimal representation is a
digit. -/
theorem natRepr_isDigit (n : Nat) (c : Char) (h : c ∈ (Nat.repr n).data) :
    c.isDigit = true := by
  have h' : c ∈ Nat.toDigitsCore 10 (n + 1) n [] := by
    simpa [Nat.repr, Nat.toDigits, List.asString] using h
  rcases mem_toDigitsCore_ten (n + 1) n [] c h' with hl | ⟨m, hm, rfl⟩
  · simp at hl
  · interval_cases m <;> decide

/-- Every character of an integer's decimal representation is a digit or the
minus sign. -/
theorem intRepr_digit_or_dash (n : Int) (c : Char) (h : c ∈ (toString n).data) :
    c.isDigit = true ∨ c = '-' := by
  cases n with
  | ofNat m =>
    left
    exact natRepr_isDigit m c (by simpa [toString, Int.repr] using h)
  | negSucc m =>
    have h' : c ∈ ("-" ++ Nat.repr (m + 1)).data := by
      simpa [toString, Int.repr] using h
    rw [String.data_append] at h'
    rcases List.mem_append.mp h' with hl | hr
    · right
      simpa using hl
    · left
      exact natRepr_isDigit (m + 1) c hr

/-- Month keys contain no slash. -/
theorem key_no_slash (d : JSDate) : '/' ∉ (getYearMonthKey d).data := by
  intro h
  unfold getYearMonthKey at h
  simp only [String.data_append] at h
  rcases List.mem_append.mp h with h1 | h2
  · rcases List.mem_append.mp h1 with h3 | h4
    · rcases intRepr_digit_or_dash d.year '/' h3 with hd | hd <;> simp at hd
    · simp at h4
  · unfold padMonth at h2
    split at h2
    · rw [String.data_append] at h2
      rcases List.mem_append.mp h2 with h5 | h6
      · simp at h5
      · have := natRepr_isDigit _ '/' (by simpa [toString] using h6)
        simp at this
    · have := natRepr_isDigit _ '/' (by simpa [toString] using h2)
      simp at this

/-- Splitting at the first slash of a slash-free-prefixed string is
unambiguous. -/
theorem slashFree_split (y1 : List Char) : ∀ (y2 r1 r2 : List Char), '/' ∉ y1 → '/' ∉ y2 →
    y1 ++ '/' :: r1 = y2 ++ '/' :: r2 → y1 = y2 ∧ r1 = r2 := by
  induction y1 with
  | nil =>
    intro y2 r1 r2 _ h2 he
    cases y2 with
    | nil => simpa using he
    | cons c y2' =>
      simp only [List.nil_append, List.cons_append, List.cons.injEq] at he
      refine absurd (he.1 ▸ List.mem_cons_self c y2') ?_
      rw [← he.1] at h2
      simp at h2
  | cons c y1' ih =>
    intro y2 r1 r2 h1 h2 he
    cases y2 with
    | nil =>
      simp only [List.cons_append, List.nil_append, List.cons.injEq] at he
      refine absurd (he.1 ▸ List.mem_cons_self c y1') ?_
      rw [he.1] at h1
      simp at h1
    | cons d y2' =>
      simp only [List.cons_append, List.cons.injEq] at he
      obtain ⟨rfl, he'⟩ := he
      have := ih y2' r1 r2 (fun hm => h1 (List.mem_cons_of_mem _ hm))
        (fun hm => h2 (List.mem_cons_of_mem _ hm)) he'
      exact ⟨by rw [this.1], this.2⟩

/-- Distinct slash-free month keys give distinct page paths. -/
theorem generateFilePath_inj (k1 k2 outputDir : String)
    (h1 : '/' ∉ k1.data) (h2 : '/' ∉ k2.data)
    (he : generateFilePath k1 outputDir = generateFilePath k2 outputDir) : k1 = k2 := by
  unfold generateFilePath at he
  have hd : (dropTrailingSlashes outputDir).data ++ '/' ::
      ((yearOf k1).data ++ '/' :: (k1.data ++ ".html".data)) =
      (dropTrailingSlashes outputDir).data ++ '/' ::
        ((yearOf k2).data ++ '/' :: (k2.data ++ ".html".data)) := by
    have := congrArg String.data he
    simpa [String.data_append, List.append_assoc] using this
  have hy1 : '/' ∉ (yearOf k1).data := fun hm => h1 ((List.takeWhile_sublist _).subset hm)
  have hy2 : '/' ∉ (yearOf k2).data := fun hm => h2 ((List.takeWhile_sublist _).subset hm)
  have hd' := List.append_cancel_left hd
  have ht : (yearOf k1).data ++ '/' :: (k1.data ++ ".html".data) =
      (yearOf k2).data ++ '/' :: (k2.data ++ ".html".data) := by
    injection hd'
  have hs := slashFree_split _ _ _ _ hy1 hy2 ht
  have hk := List.append_cancel_right hs.2
  exact String.ext hk

/-- Ascending-insert permutes with cons. -/
theorem insertStrAsc_perm (x : String) (s : List String) :
    (insertStrAsc x s).Perm (x :: s) := by
  induction s with
  | nil => simp [insertStrAsc]
  | cons y ys ih =>
    rw [insertStrAsc]
    split
    · exact List.Perm.refl _
    · exact (List.Perm.cons y ih).trans (List.Perm.swap x y ys)

/-- `sortStringsAsc` is a permutation. -/
theorem sortStringsAsc_perm (l : List String) : (sortStringsAsc l).Perm l := by
  induction l with
  | nil => simp [sortStringsAsc]
  | cons x xs ih =>
    rw [sortStringsAsc]
    exact (insertStrAsc_perm x (sortStringsAsc xs)).trans (List.Perm.cons x ih)

/-- The grouping keys are distinct (shared helper). -/
theorem nodup_keys_groupItemsByMonth (items : List RSSItem) :
    ((groupItemsByMonth items).map Prod.fst).Nodup := by
  have hperm : (groupItemsByMonth items).Perm
      ((collectGroups items).map (fun p => (p.1, sortByTimeDesc p.2))) := by
    unfold groupItemsByMonth
    exact sortPairsDesc_perm _
  have hkeys : ((collectGroups items).map (fun p => (p.1, sortByTimeDesc p.2))).map
      Prod.fst = (collectGroups items).map Prod.fst := by
    rw [List.map_map]
    rfl
  have := (hperm.map Prod.fst).nodup_iff
  rw [hkeys] at this
  exact this.mpr (nodup_keys_collectGroups items)

/-- Every grouping key is a `getYearMonthKey`, hence slash-free. -/
theorem groups_key_no_slash (items : List RSSItem) (k : String)
    (hk : k ∈ (groupItemsByMonth items).map Prod.fst) : '/' ∉ k.data := by
  obtain ⟨p, hp, rfl⟩ := List.mem_map.mp hk
  obtain ⟨b₀, hb₀, _⟩ := (mem_groupItemsByMonth items p.1 p.2).mp hp
  have hkm : p.1 ∈ (collectGroups items).map Prod.fst :=
    List.mem_map.mpr ⟨(p.1, b₀), hb₀, rfl⟩
  have hne := (key_mem_iff_bucketOf_ne_nil _ (nonempty_collectGroups items) p.1).mp hkm
  rw [bucketOf_collectGroups] at hne
  obtain ⟨i, hi, hpi⟩ : ∃ i ∈ items, (keyOfItem i == some p.1) = true := by
    by_contra hcon
    push_neg at hcon
    apply hne
    apply List.filter_eq_nil_iff.mpr
    intro i hi hp2
    exact hcon i hi (by simpa using hp2)
  have hkey : keyOfItem i = some p.1 := by simpa using hpi
  unfold keyOfItem at hkey
  cases hpd : i.pubDate with
  | none => rw [hpd] at hkey; simp at hkey
  | some d =>
    rw [hpd] at hkey
    simp at hkey
    rw [← hkey]
    exact key_no_slash d

/-- With distinct first components, equal keys force equal entries. -/
theorem eq_of_mem_nodup_fst (l : List (String × List RSSItem))
    (h : (l.map Prod.fst).Nodup) (p q : String × List RSSItem)
    (hp : p ∈ l) (hq : q ∈ l) (he : p.1 = q.1) : p = q := by
  induction l with
  | nil => simp at hp
  | cons r rest ih =>
    simp only [List.map_cons, List.nodup_cons] at h
    rcases List.mem_cons.mp hp with rfl | hp' <;> rcases List.mem_cons.mp hq with h2 | hq'
    · rw [h2]
    · exact absurd (List.mem_map.mpr ⟨q, hq', he.symm⟩) h.1
    · exact absurd (List.mem_map.mpr ⟨p, hp', by rw [he, h2]⟩) h.1
    · exact ih h.2 hp' hq'

/-- The path a bucket's output file targets is that bucket's page. -/
theorem processBucket_path (env : ConvertEnv) (outputDir : String) (avail : List String)
    (fs : FS) (ym : String) (items : List RSSItem) (o : String × String)
    (c : Option (String × String))
    (h : processBucket env outputDir avail fs ym items = some (o, c)) :
    o.1 = generateFilePath ym outputDir := by
  rcases hl : fs.lookup (generateFilePath ym outputDir) with _ | html
  · simp only [processBucket, hl, Option.some.injEq, Prod.mk.injEq] at h
    rw [← h.1]
  · simp only [processBucket, hl] at h
    split at h
    · simp at h
    · simp only [Option.some.injEq, Prod.mk.injEq] at h
      rw [← h.1]

/-- A created-page record names the bucket and an adjacent earlier month. -/
theorem processBucket_created (env : ConvertEnv) (outputDir : String)
    (avail : List String) (fs : FS) (ym : String) (items : List RSSItem)
    (o : String × String) (pr : String × String)
    (h : processBucket env outputDir avail fs ym items = some (o, some pr)) :
    pr.1 = ym ∧ (findAdjacentMonths ym avail).prev = some pr.2 := by
  rcases hl : fs.lookup (generateFilePath ym outputDir) with _ | html
  · simp only [processBucket, hl] at h
    rcases hadj : (findAdjacentMonths ym avail).prev with _ | prev
    · rw [hadj] at h
      simp at h
    · rw [hadj] at h
      simp only [Option.some.injEq, Prod.mk.injEq] at h
      obtain ⟨-, h2⟩ := h
      rw [← h2]
      exact ⟨rfl, rfl⟩
  · simp only [processBucket, hl] at h
    split at h
    · simp at h
    · simp only [Option.some.injEq, Prod.mk.injEq] at h
      exact absurd h.2 (by simp)

/-- The previous-month key named by the adjacency lookup is one of the
available month keys. -/
theorem findAdjacentMonths_prev_mem (ym : String) (avail : List String) (prev : String)
    (h : (findAdjacentMonths ym avail).prev = some prev) : prev ∈ avail := by
  simp only [findAdjacentMonths] at h
  rcases hidx : (sortStringsAsc avail).findIdx? (fun m => m == ym) with _ | i
  · rw [hidx] at h
    simp at h
  · rw [hidx] at h
    simp only at h
    split at h
    · have := List.get?_mem h
      exact (sortStringsAsc_perm avail).subset this
    · simp at h

/-- When no write fails, the batch succeeds and reports the files' paths in
input order after the already-written prefix. -/
theorem writeBatchGo_ok (fail : String → Bool) (outs : List (String × String))
    (h : ∀ pc ∈ outs, fail pc.1 = false) : ∀ fs written,
    writeBatchGo fail fs written outs =
      (outs.foldl (fun a pc => a.insert pc.1 pc.2) fs,
        Except.ok (written ++ outs.map Prod.fst)) := by
  induction outs with
  | nil => intro fs written; simp [writeBatchGo]
  | cons pc rest ih =>
    intro fs written
    obtain ⟨p, c⟩ := pc
    have hp : fail p = false := h (p, c) (List.mem_cons_self _ _)
    rw [writeBatchGo, hp]
    simp only [Bool.false_eq_true, if_false]
    rw [ih (fun q hq => h q (List.mem_cons_of_mem _ hq)) (fs.insert p c) (written ++ [p])]
    simp [List.foldl_cons]

/-- Every batch-phase output file comes from some bucket of the group list. -/
theorem convertLoop_batch_mem (env : ConvertEnv) (outputDir : String)
    (avail : List String) (fs : FS) :
    ∀ (gs : List (String × List RSSItem)) (o : String × String),
    o ∈ (convertLoop env outputDir avail fs gs).1 →
    ∃ q ∈ gs, ∃ c, processBucket env outputDir avail fs q.1 q.2 = some (o, c) := by
  intro gs
  induction gs with
  | nil => intro o ho; simp [convertLoop] at ho
  | cons g rest ih =>
    intro o ho
    obtain ⟨ym, its⟩ := g
    simp only [convertLoop] at ho
    rcases hpb : processBucket env outputDir avail fs ym its with _ | ⟨o2, c2⟩
    · rw [hpb] at ho
      obtain ⟨q, hq, c, hc⟩ := ih o ho
      exact ⟨q, List.mem_cons_of_mem _ hq, c, hc⟩
    · rw [hpb] at ho
      rcases List.mem_cons.mp ho with rfl | ho'
      · exact ⟨(ym, its), List.mem_cons_self _ _, c2, hpb⟩
      · obtain ⟨q, hq, c, hc⟩ := ih o ho'
        exact ⟨q, List.mem_cons_of_mem _ hq, c, hc⟩

/-- The batch-phase write paths are a sublist of the buckets' page paths. -/
theorem convertLoop_paths_sublist (env : ConvertEnv) (outputDir : String)
    (avail : List String) (fs : FS) :
    ∀ gs : List (String × List RSSItem),
    List.Sublist ((convertLoop env outputDir avail fs gs).1.map Prod.fst)
      (gs.map (fun g => generateFilePath g.1 outputDir)) := by
  intro gs
  induction gs with
  | nil => simp [convertLoop]
  | cons g rest ih =>
    obtain ⟨ym, its⟩ := g
    rcases hpb : processBucket env outputDir avail fs ym its with _ | ⟨o, c⟩
    · simp only [convertLoop, hpb, List.map_cons]
      exact List.Sublist.cons _ ih
    · simp only [convertLoop, hpb, List.map_cons]
      rw [processBucket_path env outputDir avail fs ym its o c hpb]
      exact List.Sublist.cons₂ _ ih

/-- Every created-page record comes from some bucket of the group list. -/
theorem convertLoop_created_mem (env : ConvertEnv) (outputDir : String)
    (avail : List String) (fs : FS) :
    ∀ (gs : List (String × List RSSItem)) (pr : String × String),
    pr ∈ (convertLoop env outputDir avail fs gs).2 →
    ∃ q ∈ gs, ∃ o, processBucket env outputDir avail fs q.1 q.2 = some (o, some pr) := by
  intro gs
  induction gs with
  | nil => intro pr hpr; simp [convertLoop] at hpr
  | cons g rest ih =>
    intro pr hpr
    obtain ⟨ym, its⟩ := g
    simp only [convertLoop] at hpr
    rcases hpb : processBucket env outputDir avail fs ym its with _ | ⟨o, c⟩
    · rw [hpb] at hpr
      obtain ⟨q, hq, o, ho⟩ := ih pr hpr
      exact ⟨q, List.mem_cons_of_mem _ hq, o, ho⟩
    · rw [hpb] at hpr
      rcases c with _ | pair
      · obtain ⟨q, hq, o2, ho⟩ := ih pr hpr
        exact ⟨q, List.mem_cons_of_mem _ hq, o2, ho⟩
      · rcases List.mem_cons.mp hpr with rfl | hpr'
        · exact ⟨(ym, its), List.mem_cons_self _ _, o, hpb⟩
        · obtain ⟨q, hq, o2, ho⟩ := ih pr hpr'
          exact ⟨q, List.mem_cons_of_mem _ hq, o2, ho⟩

/-- Every path the navigation-patch phase logs is either already in the log
or is the page path of some created-record's previous month. -/
theorem applyNavPatches_log_mem (outputDir : String) :
    ∀ (prs : List (String × String)) (fs : FS) (log : List String) (q : String),
    q ∈ (applyNavPatches outputDir fs log prs).2 →
    q ∈ log ∨ ∃ pr ∈ prs, q = generateFilePath pr.2 outputDir := by
  intro prs
  induction prs with
  | nil =>
    intro fs log q hq
    exact Or.inl (by simpa [applyNavPatches] using hq)
  | cons pr rest ih =>
    intro fs log q hq
    obtain ⟨ym, prev⟩ := pr
    simp only [applyNavPatches] at hq
    rcases hl : fs.lookup (generateFilePath prev outputDir) with _ | prevHtml
    · rw [hl] at hq
      rcases ih _ _ _ hq with h | ⟨pr2, hpr2, he⟩
      · exact Or.inl h
      · exact Or.inr ⟨pr2, List.mem_cons_of_mem _ hpr2, he⟩
    · rw [hl] at hq
      simp only at hq
      split at hq
      · rcases ih _ _ _ hq with h | ⟨pr2, hpr2, he⟩
        · exact Or.inl h
        · exact Or.inr ⟨pr2, List.mem_cons_of_mem _ hpr2, he⟩
      · rcases ih _ _ _ hq with h | ⟨pr2, hpr2, he⟩
        · rcases List.mem_append.mp h with h1 | h2
          · exact Or.inl h1
          · exact Or.inr ⟨(ym, prev), List.mem_cons_self _ _, by simpa using h2⟩
        · exact Or.inr ⟨pr2, List.mem_cons_of_mem _ hpr2, he⟩

/-- C5: counterexample.  In a run with an up-to-date December bucket (its
page exists and all its links are known, so it is skipped with no new
entries) and a brand-new January bucket, the navigation-patch phase opens
and rewrites the December bucket's page to activate its next-month link:
the run touches the page of a bucket that had no new entries, contradicting
the claim's frame condition. -/
theorem C5_nav_patch_counterexample :
    filterNewItems [itemDec12] (c5Env.extractDate c5OldPage)
        (c5Env.extractLinks c5OldPage) = [] ∧
    (convert c5Env "out" c5Fs [itemJan25, itemDec12]).batchPaths =
      ["out/2025/2025-01.html"] ∧
    (convert c5Env "out" c5Fs [itemJan25, itemDec12]).patchPaths =
      ["out/2024/2024-12.html"] ∧
    generateFilePath "2024-12" "out" = "out/2024/2024-12.html" ∧
    (convert c5Env "out" c5Fs [itemJan25, itemDec12]).fs.lookup
        "out/2024/2024-12.html" ≠ some c5OldPage :=
  ⟨rfl, rfl, rfl, rfl, by decide⟩

/-- C5 (amended): per-bucket write discipline of a non-failing run.  The
batch phase writes each written bucket's page exactly once (the batch paths
are distinct and each is some bucket's page), and never writes the page of
a bucket that was skipped because its existing page already knew all links
(the `NO_CHANGE` outcome).  The navigation-patch phase, however, may
additionally rewrite bucket pages: each patch path is the page of some
bucket (the previous month of a newly created page) — including, as the
counterexample shows, buckets that had no new entries. -/
theorem C5_write_discipline_amended (env : ConvertEnv) (outputDir : String)
    (fs : FS) (items : List RSSItem) (hok : ∀ p, env.fail p = false) :
    (convert env outputDir fs items).batchPaths.Nodup ∧
    (∀ q ∈ (convert env outputDir fs items).batchPaths,
      ∃ p ∈ groupItemsByMonth items, q = generateFilePath p.1 outputDir) ∧
    (∀ p ∈ groupItemsByMonth items, ∀ html,
      fs.lookup (generateFilePath p.1 outputDir) = some html →
      filterNewItems p.2 (env.extractDate html) (env.extractLinks html) = [] →
      generateFilePath p.1 outputDir ∉ (convert env outputDir fs items).batchPaths) ∧
    (∀ q ∈ (convert env outputDir fs items).patchPaths,
      ∃ prev ∈ (groupItemsByMonth items).map Prod.fst,
        q = generateFilePath prev outputDir) := by
  set g := groupItemsByMonth items with hgdef
  set avail := g.map Prod.fst with havdef
  set lr := convertLoop env outputDir avail fs g with hlrdef
  by_cases hemp : lr.1.isEmpty
  · have hc : convert env outputDir fs items = ⟨fs, [], [], false⟩ := by
      simp only [convert, ← hgdef, ← havdef, ← hlrdef]
      rw [if_pos hemp]
    rw [hc]
    refine ⟨List.nodup_nil, ?_, ?_, ?_⟩
    · intro q hq; simp at hq
    · intro p hp html h1 h2; simp
    · intro q hq; simp at hq
  · have hwb := writeBatchGo_ok env.fail lr.1 (fun pc _ => hok pc.1) fs []
    have hc : convert env outputDir fs items =
        ⟨(applyNavPatches outputDir
            (lr.1.foldl (fun a pc => a.insert pc.1 pc.2) fs) [] lr.2).1,
          lr.1.map Prod.fst,
          (applyNavPatches outputDir
            (lr.1.foldl (fun a pc => a.insert pc.1 pc.2) fs) [] lr.2).2,
          false⟩ := by
      simp only [convert, ← hgdef, ← havdef, ← hlrdef]
      rw [if_neg hemp, hwb]
      rfl
    rw [hc]
    refine ⟨?_, ?_, ?_, ?_⟩
    · have hsub := convertLoop_paths_sublist env outputDir avail fs g
      rw [← hlrdef] at hsub
      have hmm : g.map (fun p => generateFilePath p.1 outputDir) =
          (g.map Prod.fst).map (fun k => generateFilePath k outputDir) := by
        rw [List.map_map]
        rfl
      have hnd : (g.map (fun p => generateFilePath p.1 outputDir)).Nodup := by
        rw [hmm]
        refine List.Nodup.map_on ?_ (nodup_keys_groupItemsByMonth items)
        intro k1 hk1 k2 hk2 he
        exact generateFilePath_inj k1 k2 outputDir
          (groups_key_no_slash items k1 hk1) (groups_key_no_slash items k2 hk2) he
      exact hnd.sublist hsub
    · intro q hq
      obtain ⟨o, ho, rfl⟩ := List.mem_map.mp hq
      obtain ⟨p, hp, c, hc2⟩ := convertLoop_batch_mem env outputDir avail fs g o ho
      exact ⟨p, hp, processBucket_path env outputDir avail fs p.1 p.2 o c hc2⟩
    · intro p hp html h1 h2 hmem
      obtain ⟨o, ho, heq⟩ := List.mem_map.mp hmem
      obtain ⟨p2, hp2, c, hc2⟩ := convertLoop_batch_mem env outputDir avail fs g o ho
      have hpath := processBucket_path env outputDir avail fs p2.1 p2.2 o c hc2
      have hke : p2.1 = p.1 := by
        apply generateFilePath_inj p2.1 p.1 outputDir
          (groups_key_no_slash items p2.1 (List.mem_map.mpr ⟨p2, hp2, rfl⟩))
          (groups_key_no_slash items p.1 (List.mem_map.mpr ⟨p, hp, rfl⟩))
        rw [← hpath, heq]
      have hpe : p2 = p :=
        eq_of_mem_nodup_fst g (nodup_keys_groupItemsByMonth items) p2 p hp2 hp hke
      have hnone : processBucket env outputDir avail fs p.1 p.2 = none := by
        simp only [processBucket, h1]
        rw [h2]
        simp
      rw [hpe, hnone] at hc2
      exact Option.noConfusion hc2
    · intro q hq
      rcases applyNavPatches_log_mem outputDir lr.2 _ [] q hq with h | ⟨pr, hpr, he⟩
      · simp at h
      · obtain ⟨p2, hp2, o, ho⟩ := convertLoop_created_mem env outputDir avail fs g pr hpr
        have hcr := processBucket_created env outputDir avail fs p2.1 p2.2 o pr ho
        have hmem2 : pr.2 ∈ avail :=
          findAdjacentMonths_prev_mem p2.1 avail pr.2 hcr.2
        exact ⟨pr.2, hmem2, he⟩

/-- Witness for the amended C5 theorem at the concrete two-bucket run: the
no-failure hypothesis holds for `c5Env`, and the write-discipline conclusion
follows for that run. -/
theorem C5_write_discipline_amended_witness :
    (∀ p : String, c5Env.fail p = false) ∧
    ((convert c5Env "out" c5Fs [itemJan25, itemDec12]).batchPaths.Nodup ∧
    (∀ q ∈ (convert c5Env "out" c5Fs [itemJan25, itemDec12]).batchPaths,
      ∃ p ∈ groupItemsByMonth [itemJan25, itemDec12],
        q = generateFilePath p.1 "out") ∧
    (∀ p ∈ groupItemsByMonth [itemJan25, itemDec12], ∀ html,
      c5Fs.lookup (generateFilePath p.1 "out") = some html →
      filterNewItems p.2 (c5Env.extractDate html) (c5Env.extractLinks html) = [] →
      generateFilePath p.1 "out" ∉
        (convert c5Env "out" c5Fs [itemJan25, itemDec12]).batchPaths) ∧
    (∀ q ∈ (convert c5Env "out" c5Fs [itemJan25, itemDec12]).patchPaths,
      ∃ prev ∈ (groupItemsByMonth [itemJan25, itemDec12]).map Prod.fst,
        q = generateFilePath prev "out")) :=
  ⟨fun _ => rfl,
    C5_write_discipline_amended c5Env "out" c5Fs [itemJan25, itemDec12] (fun _ => rfl)⟩

/-- Witness for C2 at a concrete one-bucket second run: the
everything-already-known hypothesis holds, and the run performs zero writes
and leaves the filesystem unchanged. -/
theorem C2_second_run_no_writes_witness :
    (∀ p ∈ groupItemsByMonth [c2Item], ∃ html,
      c2Fs.lookup (generateFilePath p.1 "out") = some html ∧
        ∀ i ∈ p.2, (c2Env.extractLinks html).contains i.link = true) ∧
    (convert c2Env "out" c2Fs [c2Item] = ⟨c2Fs, [], [], false⟩
      ∧ ∀ p ∈ groupItemsByMonth [c2Item], ∀ html,
        c2Fs.lookup (generateFilePath p.1 "out") = some html →
        filterNewItems p.2 (c2Env.extractDate html) (c2Env.extractLinks html) = []) := by
  have hh : ∀ p ∈ groupItemsByMonth [c2Item], ∃ html,
      c2Fs.lookup (generateFilePath p.1 "out") = some html ∧
        ∀ i ∈ p.2, (c2Env.extractLinks html).contains i.link = true := by
    intro p hp
    have hg : groupItemsByMonth [c2Item] = [("2024-01", [c2Item])] := by decide
    rw [hg] at hp
    have hp2 : p = ("2024-01", [c2Item]) := by simpa using hp
    rw [hp2]
    exact ⟨"page", by decide, by decide⟩
  exact ⟨hh, C2_second_run_no_writes c2Env "out" c2Fs [c2Item] hh⟩
